import Mathlib

/-!
# API record service and policy adapter service (server/service/system)

A shallow embedding of `sys_api.go` and `sys_casbin.go`.

* The relational database is a pair of in-memory tables: the live rows of the
  API table and the rows of the generic policy-rule table.
* Every call into an external collaborator (database, enforcement library,
  logger) is appended to a trace, and may be made to fail by a script of
  injected failures carried by the world.
* A Go panic (a method call on the nil enforcer) is an explicit outcome.
-/

namespace Gva

/-! ## Data model -/

/-- Row of the API table (`system.SysApi`): identifier, path, description,
group and HTTP method. -/
structure SysApi where
  ID : Nat
  Path : String
  Description : String
  ApiGroup : String
  Method : String
deriving DecidableEq, Repr

/-- Row of the generic policy-rule table (`gormadapter.CasbinRule`): ptype and
the positional value columns v0..v5. -/
structure CasbinRule where
  Ptype : String
  V0 : String
  V1 : String
  V2 : String
  V3 : String
  V4 : String
  V5 : String
deriving DecidableEq, Repr

/-- Request item `request.CasbinInfo`: a path and a method. -/
structure CasbinInfo where
  Path : String
  Method : String
deriving DecidableEq, Repr

/-- Request envelope `request.PageInfo` (Go `int` fields). -/
structure PageInfo where
  Page : Int
  PageSize : Int
deriving DecidableEq, Repr

/-- Go `error` values seen by the services: `gorm.ErrRecordNotFound`, any other
error reported by the database or the library, and errors built by the
services themselves with `errors.New` / `fmt.Errorf`. -/
inductive Error where
  | ErrRecordNotFound
  | db (msg : String)
  | new (msg : String)
deriving DecidableEq, Repr

/-- The in-memory state behind the `*casbin.SyncedCachedEnforcer` pointer: the
cached copy of the policy rules and the expiry of the result cache. -/
structure Enforcer where
  policy : List (List String)
  expireTime : Nat
deriving DecidableEq, Repr

/-- A where-clause of the paginated list query. -/
inductive Cond where
  | pathLike (pat : String)
  | descriptionLike (pat : String)
  | methodEq (m : String)
  | apiGroupEq (g : String)
deriving DecidableEq, Repr

/-- The paginated list query handed to the database. -/
structure PageQuery where
  conds : List Cond
  limit : Int
  offset : Int
  order : String
deriving DecidableEq, Repr

/-- Calls into external collaborators, in the order they are issued.
`clearCasbin` marks the entry of `CasbinService.ClearCasbin`. -/
inductive Call where
  | apiFirstByPair (path method : String)
  | apiFirstById (id : Nat)
  | apiCreate (api : SysApi)
  | apiDelete (id : Nat)
  | apiSave (api : SysApi)
  | apiCount (conds : List Cond)
  | apiFind (q : PageQuery)
  | apiFindByIds (ids : List Int)
  | apiDeleteMany (ids : List Nat)
  | ruleUpdates (oldPath oldMethod newPath newMethod : String)
  | newAdapterByDB
  | newModelFromString
  | newSyncedCachedEnforcer
  | setExpireTime (seconds : Nat)
  | loadPolicy
  | zapError (msg : String)
  | removeFilteredPolicy (fieldIndex : Nat) (fieldValues : List String)
  | addPolicies (rules : List (List String))
  | clearCasbin (v : Nat) (p : List String)
deriving DecidableEq, Repr

/-- The state the two services run against: the database tables
(`global.GVA_DB`), the package variables `once` and `syncedCachedEnforcer`,
the script of injected failures for the coming fallible external calls
(`some msg` makes the call fail with that message, `none` or an exhausted
script lets it run), and the trace of external calls issued so far. -/
structure World where
  apis : List SysApi
  rules : List CasbinRule
  once : Bool
  syncedCachedEnforcer : Option Enforcer
  faults : List (Option String)
  trace : List Call
deriving DecidableEq, Repr

/-- Result of running a service function: it returns a value, or it panics. -/
inductive Outcome (α : Type) where
  | ret (val : α) (w : World)
  | panic (w : World)
deriving DecidableEq, Repr

/-- The world a run ends in, whether it returned or panicked. -/
def Outcome.world {α : Type} : Outcome α → World
  | .ret _ w => w
  | .panic w => w

/-- A service function: explicit state passing over the world. -/
def M (α : Type) : Type := World → Outcome α

/-- Sequencing: a panic of the first part aborts the rest. -/
def M.bind {α β : Type} (x : M α) (f : α → M β) : M β := fun w =>
  match x w with
  | .ret a w1 => f a w1
  | .panic w1 => .panic w1

instance : Monad M where
  pure a := fun w => .ret a w
  bind := M.bind

/-! ## External collaborators

The database (through gorm) and the enforcement library are not part of this
code. They are modelled by what the services rely on: lookups, inserts,
updates and deletes on the two tables, each of which may fail without effect,
and an enforcer that writes through to the rule table and keeps a cached copy of
it. -/

/-- Record an external call in the trace. -/
def logCall (c : Call) : M Unit := fun w =>
  .ret () { w with trace := w.trace ++ [c] }

/-- The failure a script injects into the next fallible call, if any. -/
def failing (script : List (Option String)) : Option String := script.head?.join

/-- Take the next entry of the failure script. -/
def nextFault : M (Option String) := fun w =>
  .ret (failing w.faults) { w with faults := w.faults.tail }

/-- Issue a fallible external call: log it and learn whether it fails. -/
def extCall (c : Call) : M (Option String) := do
  logCall c
  nextFault

/-- A Go panic. -/
def panic {α : Type} : M α := fun w => .panic w

/-- Read the current world. -/
def getWorld : M World := fun w => .ret w w

/-- Change the current world. -/
def modifyWorld (f : World → World) : M Unit := fun w => .ret () (f w)

/-- The zero value of `system.SysApi`. -/
def SysApi.zero : SysApi := ⟨0, "", "", "", ""⟩

/-- The row of least primary key (`ORDER BY id LIMIT 1`). -/
def leastID : List SysApi → Option SysApi
  | [] => none
  | r :: rs =>
    match leastID rs with
    | none => some r
    | some m => if m.ID < r.ID then some m else some r

/-- The answer of `Where(...).First(&dest)` on a table. -/
def firstWhere (p : SysApi → Bool) (t : List SysApi) : Option SysApi :=
  leastID (t.filter p)

/-- Model of gorm `db.Where(cond).First(&dest).Error` on the API table: the
destination (left at its zero value unless a row is found) and the error. -/
def First (c : Call) (p : SysApi → Bool) : M (SysApi × Option Error) := do
  let f ← extCall c
  match f with
  | some msg => pure (SysApi.zero, some (Error.db msg))
  | none => do
    let w ← getWorld
    match firstWhere p w.apis with
    | some r => pure (r, none)
    | none => pure (SysApi.zero, some Error.ErrRecordNotFound)

/-- The next auto-increment primary key. -/
def freshID (t : List SysApi) : Nat := (t.map SysApi.ID).foldr max 0 + 1

/-- Model of gorm `db.Create(&api).Error`: a zero primary key is assigned by
auto-increment, a primary key already in use is refused. -/
def Create (api : SysApi) : M (Option Error) := do
  let f ← extCall (Call.apiCreate api)
  match f with
  | some msg => pure (some (Error.db msg))
  | none => do
    let w ← getWorld
    if api.ID = 0 then do
      modifyWorld (fun w => { w with apis := w.apis ++ [{ api with ID := freshID w.apis }] })
      pure none
    else if w.apis.any (fun r => r.ID = api.ID) then
      pure (some (Error.db "duplicate primary key"))
    else do
      modifyWorld (fun w => { w with apis := w.apis ++ [api] })
      pure none

/-- Model of gorm `db.Delete(&entity).Error` on the API table: rows are
addressed by the primary key of `entity`; a zero primary key leaves the
statement without a where-clause, which gorm refuses. -/
def Delete (entity : SysApi) : M (Option Error) := do
  let f ← extCall (Call.apiDelete entity.ID)
  match f with
  | some msg => pure (some (Error.db msg))
  | none =>
    if entity.ID = 0 then
      pure (some (Error.db "WHERE conditions required"))
    else do
      modifyWorld (fun w => { w with apis := w.apis.filter (fun r => r.ID ≠ entity.ID) })
      pure none

/-- The table after an upsert of `api` on the primary key; with a zero primary
key the row is inserted under a fresh key. -/
def upsert (api : SysApi) (t : List SysApi) : List SysApi :=
  if api.ID = 0 then t ++ [{ api with ID := freshID t }]
  else if t.any (fun r => r.ID = api.ID) then t.map (fun r => if r.ID = api.ID then api else r)
  else t ++ [api]

/-- Model of gorm `db.Save(&api).Error`: an upsert on the primary key; with a
zero primary key it is a `Create`. -/
def Save (api : SysApi) : M (Option Error) := do
  let f ← extCall (Call.apiSave api)
  match f with
  | some msg => pure (some (Error.db msg))
  | none => do
    modifyWorld (fun w => { w with apis := upsert api w.apis })
    pure none

/-- Model of `db.Find(&apis, "id in ?", ids).Delete(&apis).Error`: the rows
whose id is listed are loaded and then deleted; when the find fails the
chained delete does not run. Returns the loaded rows and the error. -/
def FindDelete (ids : List Int) : M (List SysApi × Option Error) := do
  let f ← extCall (Call.apiFindByIds ids)
  match f with
  | some msg => pure ([], some (Error.db msg))
  | none => do
    let w ← getWorld
    let apis := w.apis.filter (fun r => (r.ID : Int) ∈ ids)
    let g ← extCall (Call.apiDeleteMany (apis.map SysApi.ID))
    match g with
    | some msg => pure (apis, some (Error.db msg))
    | none => do
      modifyWorld (fun w => { w with apis := w.apis.filter (fun r => ¬ ((r.ID : Int) ∈ ids)) })
      pure (apis, none)

/-- What the statement `UPDATE casbin_rule SET v1 = newPath, v2 = newMethod
WHERE v1 = oldPath AND v2 = oldMethod` does to one row. -/
def renameRule (oldPath oldMethod newPath newMethod : String) (r : CasbinRule) : CasbinRule :=
  if r.V1 = oldPath ∧ r.V2 = oldMethod then { r with V1 := newPath, V2 := newMethod }
  else r

/-- Model of `db.Model(&CasbinRule{}).Where("v1 =? AND v2 =?", oldPath,
oldMethod).Updates(map{"v1": newPath, "v2": newMethod}).Error`. A statement the
database refuses (for instance by a unique index on the rule columns) is a run
in which the call fails. -/
def Updates (oldPath oldMethod newPath newMethod : String) : M (Option Error) := do
  let f ← extCall (Call.ruleUpdates oldPath oldMethod newPath newMethod)
  match f with
  | some msg => pure (some (Error.db msg))
  | none => do
    modifyWorld (fun w => { w with
        rules := w.rules.map (renameRule oldPath oldMethod newPath newMethod) })
    pure none

/-! ### The enforcement library

The enforcer keeps a cached copy of the policy rules (section `p`, three
tokens: sub, obj, act) and writes through its database adapter. -/

/-- Rows of the rule table as the enforcer loads them: every `p` row is read
as a rule of three tokens. A load the library refuses (a row that is not a
three-token rule) is a run in which the loading call fails. -/
def loadRules (rows : List CasbinRule) : List (List String) :=
  (rows.filter (fun r => r.Ptype = "p")).map (fun r => [r.V0, r.V1, r.V2])

/-- Filter match of the library: value `i` of the filter is compared with
field `fieldIndex + i`; an empty value matches anything. -/
def matchesFilter (fields : List String) : Nat → List String → Bool
  | _, [] => true
  | idx, v :: vs => (v = "" || fields.getD idx "" = v) && matchesFilter fields (idx + 1) vs

/-- The value columns of a row. -/
def CasbinRule.fields (r : CasbinRule) : List String :=
  [r.V0, r.V1, r.V2, r.V3, r.V4, r.V5]

/-- Model of `casbin.NewSyncedCachedEnforcer(m, a)` assigned to the package
variable: on failure the pointer is nil, otherwise the new enforcer holds the
policy loaded through the adapter. -/
def NewSyncedCachedEnforcer : M Unit := do
  let f ← extCall Call.newSyncedCachedEnforcer
  match f with
  | some _ => modifyWorld (fun w => { w with syncedCachedEnforcer := none })
  | none => modifyWorld (fun w => { w with syncedCachedEnforcer := some ⟨loadRules w.rules, 0⟩ })

/-- Model of `e.SetExpireTime(seconds)`; a nil receiver panics. -/
def SetExpireTime (e : Option Enforcer) (seconds : Nat) : M Unit :=
  match e with
  | none => panic
  | some _ => do
    logCall (Call.setExpireTime seconds)
    modifyWorld (fun w => { w with
        syncedCachedEnforcer :=
          w.syncedCachedEnforcer.map (fun x => { x with expireTime := seconds }) })

/-- Model of `e.LoadPolicy()`: the cached copy is replaced by the rows of the
rule table; a nil receiver panics. -/
def LoadPolicy (e : Option Enforcer) : M (Option Error) :=
  match e with
  | none => panic
  | some _ => do
    let f ← extCall Call.loadPolicy
    match f with
    | some msg => pure (some (Error.db msg))
    | none => do
      modifyWorld (fun w => { w with
          syncedCachedEnforcer :=
            w.syncedCachedEnforcer.map (fun x => { x with policy := loadRules w.rules }) })
      pure none

/-- Model of `e.RemoveFilteredPolicy(fieldIndex, fieldValues...)`: the matching
`p` rows are deleted through the adapter, then the matching rules are removed
from the cached copy; reports whether a cached rule was removed. A nil receiver
panics. A filter whose values are all empty matches every rule here; an adapter
that refuses such a filter is a run in which the call fails. -/
def RemoveFilteredPolicy (e : Option Enforcer) (fieldIndex : Nat) (fieldValues : List String) :
    M (Bool × Option Error) :=
  match e with
  | none => panic
  | some _ => do
    logCall (Call.removeFilteredPolicy fieldIndex fieldValues)
    if fieldValues = [] then
      pure (false, some (Error.new "invalid fieldValues parameter"))
    else do
      let f ← nextFault
      match f with
      | some msg => pure (false, some (Error.db msg))
      | none => do
        let w ← getWorld
        let removed := match w.syncedCachedEnforcer with
          | none => false
          | some x => x.policy.any (fun r => matchesFilter r fieldIndex fieldValues)
        modifyWorld (fun w => { w with
            rules := w.rules.filter (fun r =>
              ¬ (r.Ptype = "p" ∧ matchesFilter r.fields fieldIndex fieldValues)),
            syncedCachedEnforcer := w.syncedCachedEnforcer.map (fun x => { x with
              policy := x.policy.filter (fun r => ¬ matchesFilter r fieldIndex fieldValues) }) })
        pure (removed, none)

/-- The row the adapter stores for a rule of section `p`. -/
def policyRow (r : List String) : CasbinRule :=
  ⟨"p", r.getD 0 "", r.getD 1 "", r.getD 2 "", r.getD 3 "", r.getD 4 "", r.getD 5 ""⟩

/-- Model of `e.AddPolicies(rules)`: refused when one of the rules is already
cached; otherwise the rules are inserted through the adapter (gorm refuses to
create from an empty slice) and appended to the cached copy. A nil receiver
panics. -/
def AddPolicies (e : Option Enforcer) (rules : List (List String)) : M (Bool × Option Error) :=
  match e with
  | none => panic
  | some _ => do
    logCall (Call.addPolicies rules)
    let w ← getWorld
    let cached := match w.syncedCachedEnforcer with
      | none => []
      | some x => x.policy
    if rules.any (fun r => r ∈ cached) then pure (false, none)
    else if rules = [] then pure (false, some (Error.db "empty slice found"))
    else do
      let f ← nextFault
      match f with
      | some msg => pure (false, some (Error.db msg))
      | none => do
        modifyWorld (fun w => { w with
            rules := w.rules ++ rules.map policyRow,
            syncedCachedEnforcer := w.syncedCachedEnforcer.map (fun x => { x with
              policy := x.policy ++ rules }) })
        pure (true, none)

/-! ## sys_casbin.go -/

/-- Model of `once.Do(f)`: `f` runs only while the flag is unset, and the flag
is set when `f` ends, also when it ends by a panic. -/
def onceDo (f : M Unit) : M Unit := fun w =>
  if w.once then .ret () w
  else
    match f w with
    | .ret _ w1 => .ret () { w1 with once := true }
    | .panic w1 => .panic { w1 with once := true }

/-- The function literal passed to `once.Do` in `CasbinService.Casbin`. -/
def construct : M Unit := do
  let a ← extCall Call.newAdapterByDB
  match a with
  | some _ => logCall (Call.zapError "适配数据库失败请检查casbin表是否为InnoDB引擎!")
  | none => do
    let m ← extCall Call.newModelFromString
    match m with
    | some _ => logCall (Call.zapError "字符串加载模型失败!")
    | none => do
      NewSyncedCachedEnforcer
      let w ← getWorld
      let e := w.syncedCachedEnforcer
      SetExpireTime e (60 * 60)
      let _ ← LoadPolicy e
      pure ()

/-- Embedding of `CasbinService.Casbin`. -/
def Casbin : M (Option Enforcer) := do
  onceDo construct
  let w ← getWorld
  pure w.syncedCachedEnforcer

/-- Embedding of `CasbinService.ClearCasbin`. The field index `v` (Go `int`) is
a natural number: the callers pass 0 and 1. -/
def ClearCasbin (v : Nat) (p : List String) : M Bool := do
  logCall (Call.clearCasbin v p)
  let e ← Casbin
  let r ← RemoveFilteredPolicy e v p
  pure r.1

/-- Go conversion `int(u)` of a `uint` on a 64-bit platform. -/
def intOfUint (u : Nat) : Int :=
  if u % 2 ^ 64 < 2 ^ 63 then ((u % 2 ^ 64 : Nat) : Int) else ((u % 2 ^ 64 : Nat) : Int) - 2 ^ 64

/-- Go `strconv.Itoa`. -/
def Itoa (i : Int) : String := toString i

/-- The deduplication loop of `UpdateCasbin`: `seen` holds the keys of
`deduplicatedMap`, `rules` the rules appended so far. -/
def dedupLoop (authorityId : String) :
    List CasbinInfo → List String → List (List String) → List (List String)
  | [], _, rules => rules
  | v :: rest, seen, rules =>
    let key := authorityId ++ v.Path ++ v.Method
    if key ∈ seen then dedupLoop authorityId rest seen rules
    else dedupLoop authorityId rest (key :: seen) (rules ++ [[authorityId, v.Path, v.Method]])

/-- The rule list `UpdateCasbin` hands to `e.AddPolicies`. -/
def dedupRules (AuthorityID : Nat) (casbinInfos : List CasbinInfo) : List (List String) :=
  dedupLoop (Itoa (intOfUint AuthorityID)) casbinInfos [] []

/-- Embedding of `CasbinService.UpdateCasbin`. -/
def UpdateCasbin (AuthorityID : Nat) (casbinInfos : List CasbinInfo) : M (Option Error) := do
  let authorityId := Itoa (intOfUint AuthorityID)
  let _ ← ClearCasbin 0 [authorityId]
  let rules := dedupLoop authorityId casbinInfos [] []
  let e ← Casbin
  let r ← AddPolicies e rules
  if ¬ r.1 then pure (some (Error.new "存在相同api,添加失败,请联系管理员"))
  else pure none

/-- Embedding of `CasbinService.UpdateCasbinApi`. -/
def UpdateCasbinApi (oldPath newPath oldMethod newMethod : String) : M (Option Error) := do
  let err ← Updates oldPath oldMethod newPath newMethod
  if err ≠ none then pure err
  else do
    let e ← Casbin
    let err ← LoadPolicy e
    if err ≠ none then pure err
    else pure none

/-! ## sys_api.go -/

/-- Embedding of `ApiService.CreateApi`. -/
def CreateApi (api : SysApi) : M (Option Error) := do
  let r ← First (Call.apiFirstByPair api.Path api.Method)
    (fun x => x.Path = api.Path ∧ x.Method = api.Method)
  if ¬ (r.2 = some Error.ErrRecordNotFound) then
    pure (some (Error.new "存在相同api"))
  else
    Create api

/-- Embedding of `ApiService.DeleteApi`. -/
def DeleteApi (api : SysApi) : M (Option Error) := do
  let r ← First (Call.apiFirstById api.ID) (fun x => x.ID = api.ID)
  if r.2 = some Error.ErrRecordNotFound then pure r.2
  else do
    let err ← Delete r.1
    if err ≠ none then pure err
    else do
      let _ ← ClearCasbin 1 [r.1.Path, r.1.Method]
      pure none

/-- Go `int` arithmetic wraps around at 64 bits. -/
def wrapInt (x : Int) : Int := (x + 2 ^ 63) % 2 ^ 64 - 2 ^ 63

/-- The database engine behind the paginated list: how it counts and how it
selects, orders and pages rows is not part of this code. -/
structure QueryEngine where
  count : List SysApi → List Cond → Int
  find : List SysApi → PageQuery → List SysApi

/-- The keys of `orderMap`. -/
def orderMap : List String := ["id", "path", "api_group", "description", "method"]

/-- Model of `db.Order(order).Find(&apiList).Error` on the filtered, paged
query. -/
def Find (db : QueryEngine) (q : PageQuery) : M (List SysApi × Option Error) := do
  let f ← extCall (Call.apiFind q)
  match f with
  | some msg => pure ([], some (Error.db msg))
  | none => do
    let w ← getWorld
    pure (db.find w.apis q, none)

/-- Model of `db.Count(&total).Error` on the filtered query. -/
def Count (db : QueryEngine) (conds : List Cond) : M (Int × Option Error) := do
  let f ← extCall (Call.apiCount conds)
  match f with
  | some msg => pure (0, some (Error.db msg))
  | none => do
    let w ← getWorld
    pure (db.count w.apis conds, none)

/-- The offset `info.PageSize * (info.Page - 1)` of `GetAPIInfoList`. -/
def pageOffset (info : PageInfo) : Int :=
  wrapInt (info.PageSize * wrapInt (info.Page - 1))

/-- The where-clauses `GetAPIInfoList` adds for the non-empty filter fields. -/
def whereConds (api : SysApi) : List Cond :=
  (if api.Path ≠ "" then [Cond.pathLike ("%" ++ api.Path ++ "%")] else []) ++
  (if api.Description ≠ "" then [Cond.descriptionLike ("%" ++ api.Description ++ "%")] else []) ++
  (if api.Method ≠ "" then [Cond.methodEq api.Method] else []) ++
  (if api.ApiGroup ≠ "" then [Cond.apiGroupEq api.ApiGroup] else [])

/-- Embedding of `ApiService.GetAPIInfoList`; returns `(list, total, err)`. -/
def GetAPIInfoList (db : QueryEngine) (api : SysApi) (info : PageInfo) (order : String)
    (desc : Bool) : M (List SysApi × Int × Option Error) := do
  let limit := info.PageSize
  let offset := pageOffset info
  let conds := whereConds api
  let c ← Count db conds
  if c.2 ≠ none then pure ([], c.1, c.2)
  else if order ≠ "" then
    if order ∈ orderMap then do
      let OrderStr := if desc then order ++ " desc" else order
      let r ← Find db ⟨conds, limit, offset, OrderStr⟩
      pure (r.1, c.1, r.2)
    else
      pure ([], c.1, some (Error.new ("非法的排序字段: " ++ order)))
  else do
    let r ← Find db ⟨conds, limit, offset, "api_group"⟩
    pure (r.1, c.1, r.2)

/-- The part of `UpdateApi` after the collision check (lines 159-169). -/
def UpdateApi.finish (api oldApi : SysApi) (err : Option Error) : M (Option Error) :=
  if err ≠ none then pure err
  else do
    let err ← UpdateCasbinApi oldApi.Path api.Path oldApi.Method api.Method
    if err ≠ none then pure err
    else Save api

/-- Embedding of `ApiService.UpdateApi`. -/
def UpdateApi (api : SysApi) : M (Option Error) := do
  let r ← First (Call.apiFirstById api.ID) (fun x => x.ID = api.ID)
  let oldApi := r.1
  if oldApi.Path ≠ api.Path ∨ oldApi.Method ≠ api.Method then do
    let d ← First (Call.apiFirstByPair api.Path api.Method)
      (fun x => x.Path = api.Path ∧ x.Method = api.Method)
    match d.2 with
    | some e =>
      if e ≠ Error.ErrRecordNotFound then pure (some e)
      else UpdateApi.finish api oldApi r.2
    | none =>
      if d.1.ID ≠ api.ID then pure (some (Error.new "存在相同api路径"))
      else UpdateApi.finish api oldApi r.2
  else UpdateApi.finish api oldApi r.2

/-- The loop `for _, sysApi := range apis` of `DeleteApisByIds`. -/
def clearEach : List SysApi → M Unit
  | [] => pure ()
  | sysApi :: rest => do
    let _ ← ClearCasbin 1 [sysApi.Path, sysApi.Method]
    clearEach rest

/-- Embedding of `ApiService.DeleteApisByIds`. -/
def DeleteApisByIds (ids : List Int) : M (Option Error) := do
  let r ← FindDelete ids
  if r.2 ≠ none then pure r.2
  else do
    clearEach r.1
    pure r.2

/-! ## Observations, invariants and sample worlds -/

/-- No two records of the table share the same (Path, Method) pair. -/
def PairUnique (t : List SysApi) : Prop :=
  (t.map (fun r => (r.Path, r.Method))).Nodup

instance (t : List SysApi) : Decidable (PairUnique t) := by
  unfold PairUnique; infer_instance

/-- Primary keys of the table are pairwise different and non-zero. -/
def KeysValid (t : List SysApi) : Prop :=
  (t.map SysApi.ID).Nodup ∧ ∀ r ∈ t, r.ID ≠ 0

instance (t : List SysApi) : Decidable (KeysValid t) := by
  unfold KeysValid; infer_instance

/-- The arguments of the `ClearCasbin` invocations recorded in a trace. -/
def clearCalls : List Call → List (Nat × List String)
  | [] => []
  | Call.clearCasbin v p :: rest => (v, p) :: clearCalls rest
  | _ :: rest => clearCalls rest

/-- The paginated queries (with their ORDER BY expression) recorded in a trace. -/
def findCalls : List Call → List PageQuery
  | [] => []
  | Call.apiFind q :: rest => q :: findCalls rest
  | _ :: rest => findCalls rest

/-- The action `x` leaves the observation `f` of the world unchanged, whether
it returns or panics. -/
def Keeps {α β : Type} (f : World → β) (x : M α) : Prop :=
  ∀ w, f (x w).world = f w

/-- The action `x` can only remove rows from the API table, whether it returns
or panics. -/
def Shrinks {α : Type} (x : M α) : Prop :=
  ∀ w, (x w).world.apis.Sublist w.apis

/-- The `ClearCasbin` invocations recorded so far. -/
def clearTrace (w : World) : List (Nat × List String) := clearCalls w.trace

/-- The enforcer has been constructed: `once` is done and the package variable
is not nil. -/
def Ready (w : World) : Prop := w.once = true ∧ w.syncedCachedEnforcer ≠ none

instance (w : World) : Decidable (Ready w) := by
  unfold Ready; infer_instance

/-- The outcomes of `n` successive calls of `Casbin()`, each starting in the
world the previous one ended in. -/
def CasbinCalls : Nat → World → List (Outcome (Option Enforcer))
  | 0, _ => []
  | n + 1, w => Casbin w :: CasbinCalls n (Casbin w).world

/-- How many times the construction body was entered: its first statement is
the call of `gormadapter.NewAdapterByDB`. -/
def constructions (t : List Call) : Nat := t.count Call.newAdapterByDB

/-- The rule table after the adapter removed the `p` rows of subject `a`. -/
def clearedRows (a : String) (rows : List CasbinRule) : List CasbinRule :=
  rows.filter (fun r => ¬ (r.Ptype = "p" ∧ matchesFilter r.fields 0 [a]))

/-- The cached copy after the rules of subject `a` were removed. -/
def clearedPolicy (a : String) (policy : List (List String)) : List (List String) :=
  policy.filter (fun r => ¬ matchesFilter r 0 [a])

/-- The two worlds hold the same policy store and the same package state. -/
def sameStore (u v : World) : Prop :=
  u.apis = v.apis ∧ u.rules = v.rules ∧ u.once = v.once ∧
    u.syncedCachedEnforcer = v.syncedCachedEnforcer

/-- The value a run returned, if it returned. -/
def Outcome.returned {α : Type} : Outcome α → Option α
  | .ret a _ => some a
  | .panic _ => none

/-- Deduplication by rule identity as the specification words it: the triples
`[authorityId, Path, Method]` in input order, every later occurrence of an
already seen (Path, Method) pair removed. -/
def dedupByPair (authorityId : String) :
    List CasbinInfo → List (String × String) → List (List String)
  | [], _ => []
  | v :: rest, seen =>
    if (v.Path, v.Method) ∈ seen then dedupByPair authorityId rest seen
    else [authorityId, v.Path, v.Method] :: dedupByPair authorityId rest ((v.Path, v.Method) :: seen)

/-- No two entries with different (Path, Method) pairs have the same
concatenation Path + Method. -/
def KeysDistinct (l : List CasbinInfo) : Prop :=
  ∀ u ∈ l, ∀ v ∈ l, u.Path ++ u.Method = v.Path ++ v.Method →
    u.Path = v.Path ∧ u.Method = v.Method

instance (l : List CasbinInfo) : Decidable (KeysDistinct l) := by
  unfold KeysDistinct; infer_instance

/-- A world in which the enforcer is constructed and role
18446744073709551615 holds one rule. -/
def bigRoleWorld : World :=
  ⟨[], [⟨"p", "18446744073709551615", "/x", "GET", "", "", ""⟩], true,
    some ⟨[["18446744073709551615", "/x", "GET"]], 3600⟩, [], []⟩

/-- An empty store with a constructed enforcer. -/
def emptyReadyWorld : World := ⟨[], [], true, some ⟨[], 3600⟩, [], []⟩

/-- A database engine that ignores filters, order and paging: it returns the
whole table. -/
def sampleEngine : QueryEngine := ⟨fun t _ => t.length, fun t _ => t⟩

/-- Two API records, two policy rows, a constructed enforcer; the third
external call to come fails. -/
def sampleWorld : World :=
  ⟨[⟨1, "/a", "", "", "GET"⟩, ⟨2, "/b", "", "", "GET"⟩],
    [⟨"p", "7", "/a", "GET", "", "", ""⟩, ⟨"p", "8", "/b", "GET", "", "", ""⟩],
    true, some ⟨[["7", "/a", "GET"], ["8", "/b", "GET"]], 3600⟩,
    [none, none, some "connection lost"], []⟩

/-- The same store with no failure to come. -/
def quietWorld : World := { sampleWorld with faults := [] }

/-- The same tables before the first call of `Casbin()`; the adapter cannot be
built. -/
def brokenWorld : World :=
  { sampleWorld with once := false, syncedCachedEnforcer := none, faults := [some "no InnoDB"] }

/-! ## Reasoning about runs -/

theorem bind_apply {α β : Type} (x : M α) (f : α → M β) (w : World) :
    (x >>= f) w = match x w with
      | .ret a w1 => f a w1
      | .panic w1 => .panic w1 := rfl

theorem pure_apply {α : Type} (a : α) (w : World) : (pure a : M α) w = .ret a w := rfl

theorem logCall_apply (c : Call) (w : World) :
    logCall c w = .ret () { w with trace := w.trace ++ [c] } := rfl

theorem nextFault_apply (w : World) :
    nextFault w = .ret (failing w.faults) { w with faults := w.faults.tail } := rfl

theorem getWorld_apply (w : World) : getWorld w = .ret w w := rfl

theorem modifyWorld_apply (f : World → World) (w : World) :
    modifyWorld f w = .ret () (f w) := rfl

theorem panic_apply {α : Type} (w : World) : (panic : M α) w = .panic w := rfl

theorem onceDo_apply (f : M Unit) (w : World) :
    onceDo f w =
      if w.once then .ret () w
      else
        match f w with
        | .ret _ w1 => .ret () { w1 with once := true }
        | .panic w1 => .panic { w1 with once := true } := rfl

theorem extCall_apply (c : Call) (w : World) :
    extCall c w = .ret (failing w.faults)
      { w with trace := w.trace ++ [c], faults := w.faults.tail } := rfl

theorem leastID_eq_none {l : List SysApi} : leastID l = none ↔ l = [] := by
  cases l with
  | nil => simp [leastID]
  | cons r rs =>
    simp only [leastID]
    split
    · simp
    · split <;> simp

theorem leastID_mem {l : List SysApi} {m : SysApi} (h : leastID l = some m) : m ∈ l := by
  induction l generalizing m with
  | nil => simp [leastID] at h
  | cons r rs ih =>
    simp only [leastID] at h
    split at h
    · simp at h; simp [h]
    · rename_i m1 hm
      split at h
      · simp at h; subst h; exact List.mem_cons_of_mem _ (ih hm)
      · simp at h; simp [h]

theorem firstWhere_some {p : SysApi → Bool} {t : List SysApi} {r : SysApi}
    (h : firstWhere p t = some r) : r ∈ t ∧ p r = true := by
  have := leastID_mem h
  simpa [List.mem_filter] using this

theorem firstWhere_eq_none {p : SysApi → Bool} {t : List SysApi} :
    firstWhere p t = none ↔ ∀ r ∈ t, p r = false := by
  simp [firstWhere, leastID_eq_none, List.filter_eq_nil_iff]

theorem First_apply (c : Call) (p : SysApi → Bool) (w : World) :
    First c p w =
      match failing w.faults with
      | some msg => .ret (SysApi.zero, some (Error.db msg))
          { w with trace := w.trace ++ [c], faults := w.faults.tail }
      | none =>
        match firstWhere p w.apis with
        | some r => .ret (r, none) { w with trace := w.trace ++ [c], faults := w.faults.tail }
        | none => .ret (SysApi.zero, some Error.ErrRecordNotFound)
            { w with trace := w.trace ++ [c], faults := w.faults.tail } := by
  simp only [First, bind_apply, extCall_apply]
  cases failing w.faults with
  | some msg => rfl
  | none =>
    simp only [bind_apply, getWorld_apply]
    cases firstWhere p w.apis <;> rfl

/-! ## C1 -/

/-- C1: for every table and every api whose (Path, Method) equals that of a
record already in the table, `CreateApi` returns a non-nil error (whatever the
database answers to the lookup) and leaves the record table, and the policy
rules, unchanged: no `Create` is issued. -/
theorem CreateApi_rejects_duplicate (w : World) (api : SysApi)
    (h : ∃ r ∈ w.apis, r.Path = api.Path ∧ r.Method = api.Method) :
    ∃ w1, CreateApi api w = .ret (some (Error.new "存在相同api")) w1 ∧
      w1.apis = w.apis ∧ w1.rules = w.rules ∧
      w1.trace = w.trace ++ [Call.apiFirstByPair api.Path api.Method] := by
  refine ⟨{ w with trace := w.trace ++ [Call.apiFirstByPair api.Path api.Method],
                   faults := w.faults.tail }, ?_, rfl, rfl, rfl⟩
  obtain ⟨r, hr, hp⟩ := h
  have hne : firstWhere (fun x => x.Path = api.Path ∧ x.Method = api.Method) w.apis ≠ none := by
    intro hn
    have := firstWhere_eq_none.mp hn r hr
    simp [hp] at this
  simp only [CreateApi, bind_apply, First_apply]
  cases hf : failing w.faults with
  | some msg => simp [pure_apply]
  | none =>
    cases hq : firstWhere (fun x => decide (x.Path = api.Path ∧ x.Method = api.Method)) w.apis with
    | none => exact absurd hq hne
    | some r1 => simp [pure_apply]

/-- Witness of C1: a table holding (/a, GET) and a request to create (/a, GET)
again. -/
theorem CreateApi_rejects_duplicate_witness :
    (∃ r ∈ (World.mk [⟨1, "/a", "", "", "GET"⟩] [] false none [] []).apis,
        r.Path = (SysApi.mk 0 "/a" "d" "g" "GET").Path ∧
        r.Method = (SysApi.mk 0 "/a" "d" "g" "GET").Method) ∧
    ∃ w1, CreateApi ⟨0, "/a", "d", "g", "GET"⟩ ⟨[⟨1, "/a", "", "", "GET"⟩], [], false, none, [], []⟩
        = .ret (some (Error.new "存在相同api")) w1 ∧
      w1.apis = [⟨1, "/a", "", "", "GET"⟩] ∧ w1.rules = [] ∧
      w1.trace = [] ++ [Call.apiFirstByPair "/a" "GET"] :=
  ⟨⟨_, List.mem_singleton.mpr rfl, rfl, rfl⟩,
    CreateApi_rejects_duplicate ⟨[⟨1, "/a", "", "", "GET"⟩], [], false, none, [], []⟩
      ⟨0, "/a", "d", "g", "GET"⟩ ⟨_, List.mem_singleton.mpr rfl, rfl, rfl⟩⟩

theorem clearCalls_append (s t : List Call) :
    clearCalls (s ++ t) = clearCalls s ++ clearCalls t := by
  induction s with
  | nil => rfl
  | cons c s ih => cases c <;> simp [clearCalls, ih]

/-! ## C3 -/

/-- C3: for every table and every api whose ID matches no record, when the
lookup by id is answered by the database, `DeleteApi` returns
`gorm.ErrRecordNotFound`; the lookup is the only external call it issues, so no
record is deleted, `ClearCasbin` is not invoked, and the record table, the
policy rules and the enforcer are unchanged. -/
theorem DeleteApi_unknown_id (w : World) (api : SysApi)
    (hid : ∀ r ∈ w.apis, r.ID ≠ api.ID) (hq : failing w.faults = none) :
    ∃ w1, DeleteApi api w = .ret (some Error.ErrRecordNotFound) w1 ∧
      w1.apis = w.apis ∧ w1.rules = w.rules ∧
      w1.syncedCachedEnforcer = w.syncedCachedEnforcer ∧ w1.once = w.once ∧
      w1.trace = w.trace ++ [Call.apiFirstById api.ID] ∧
      clearCalls w1.trace = clearCalls w.trace := by
  refine ⟨{ w with trace := w.trace ++ [Call.apiFirstById api.ID],
                   faults := w.faults.tail }, ?_, rfl, rfl, rfl, rfl, rfl, ?_⟩
  · have hn : firstWhere (fun x => decide (x.ID = api.ID)) w.apis = none :=
      firstWhere_eq_none.mpr (fun r hr => by simpa using hid r hr)
    simp [DeleteApi, bind_apply, First_apply, hq, hn, pure_apply]
  · simp [clearCalls_append, clearCalls]

/-- Witness of C3: deleting id 7 from a table that only holds id 1. -/
theorem DeleteApi_unknown_id_witness :
    ∃ w1, DeleteApi ⟨7, "", "", "", ""⟩ ⟨[⟨1, "/a", "", "", "GET"⟩], [], false, none, [], []⟩
        = .ret (some Error.ErrRecordNotFound) w1 ∧
      w1.apis = [⟨1, "/a", "", "", "GET"⟩] ∧ w1.rules = [] ∧
      w1.syncedCachedEnforcer = none ∧ w1.once = false ∧
      w1.trace = [] ++ [Call.apiFirstById 7] ∧
      clearCalls w1.trace = clearCalls [] :=
  DeleteApi_unknown_id ⟨[⟨1, "/a", "", "", "GET"⟩], [], false, none, [], []⟩ ⟨7, "", "", "", ""⟩
    (by decide) (by decide)

/-! ## C2 -/

/-- C2: in a table whose (path, method) pairs are unique, for every api whose
ID is that of an existing record `old`, whose new pair differs from the stored
pair of `old`, and equals the pair of a record `other` with a different ID,
`UpdateApi` returns a non-nil error; it issues lookups only, so the record
table, the policy rules and the enforcer are unchanged. -/
theorem UpdateApi_rejects_collision (w : World) (api old other : SysApi)
    (huniq : PairUnique w.apis)
    (hold : old ∈ w.apis) (hid : old.ID = api.ID)
    (_hdiff : old.Path ≠ api.Path ∨ old.Method ≠ api.Method)
    (hother : other ∈ w.apis) (hoid : other.ID ≠ api.ID)
    (hpair : other.Path = api.Path ∧ other.Method = api.Method) :
    ∃ e w1, UpdateApi api w = .ret (some e) w1 ∧
      w1.apis = w.apis ∧ w1.rules = w.rules ∧
      w1.syncedCachedEnforcer = w.syncedCachedEnforcer ∧ w1.once = w.once := by
  -- every record carrying the new pair is `other`
  have honly : ∀ r ∈ w.apis, r.Path = api.Path ∧ r.Method = api.Method → r = other := by
    intro r hr hp
    exact List.inj_on_of_nodup_map huniq hr hother
      (by simp [hp.1, hp.2, hpair.1, hpair.2])
  have hbyPair : ∀ t, firstWhere (fun x => decide (x.Path = api.Path ∧ x.Method = api.Method))
      w.apis = t → t = some other := by
    intro t ht
    cases t with
    | none =>
      have := firstWhere_eq_none.mp ht other hother
      simp [hpair] at this
    | some r =>
      have h2 := firstWhere_some ht
      rw [honly r h2.1 (by simpa using h2.2)]
  have hp := hbyPair _ rfl
  simp only [UpdateApi, bind_apply, First_apply]
  cases hf : failing w.faults with
  | some msg =>
    -- the lookup by id fails: `oldApi` keeps its zero value
    simp only []
    split
    · simp only [bind_apply, First_apply]
      cases hf2 : failing w.faults.tail with
      | some msg2 => (simp only [pure_apply, ne_eq, reduceCtorEq, not_false_eq_true, if_true]; exact ⟨_, _, rfl, rfl, rfl, rfl, rfl⟩)
      | none =>
        simp only [hp]
        (simp only [pure_apply, ne_eq, hoid, not_false_eq_true, if_true]; exact ⟨_, _, rfl, rfl, rfl, rfl, rfl⟩)
    · (simp only [UpdateApi.finish, pure_apply, ne_eq, reduceCtorEq, not_false_eq_true, if_true]; exact ⟨_, _, rfl, rfl, rfl, rfl, rfl⟩)
  | none =>
    cases hq : firstWhere (fun x => decide (x.ID = api.ID)) w.apis with
    | none =>
      have := firstWhere_eq_none.mp hq old hold
      simp [hid] at this
    | some o =>
      have ho := firstWhere_some hq
      have hoID : o.ID = api.ID := by simpa using ho.2
      have hne : o.Path ≠ api.Path ∨ o.Method ≠ api.Method := by
        by_contra hc
        push_neg at hc
        have := honly o ho.1 hc
        exact hoid (this ▸ hoID)
      simp only [hne, if_true, bind_apply, First_apply]
      cases hf2 : failing w.faults.tail with
      | some msg2 => (simp only [pure_apply, ne_eq, reduceCtorEq, not_false_eq_true, if_true]; exact ⟨_, _, rfl, rfl, rfl, rfl, rfl⟩)
      | none =>
        simp only [hp]
        (simp only [pure_apply, ne_eq, hoid, not_false_eq_true, if_true]; exact ⟨_, _, rfl, rfl, rfl, rfl, rfl⟩)

/-- Witness of C2: record 1 is (/a, GET), record 2 is (/b, GET); moving record 1
to (/b, GET) is refused. -/
theorem UpdateApi_rejects_collision_witness :
    ∃ e w1, UpdateApi ⟨1, "/b", "", "", "GET"⟩
        ⟨[⟨1, "/a", "", "", "GET"⟩, ⟨2, "/b", "", "", "GET"⟩],
          [⟨"p", "9", "/a", "GET", "", "", ""⟩], false, none, [], []⟩ = .ret (some e) w1 ∧
      w1.apis = [⟨1, "/a", "", "", "GET"⟩, ⟨2, "/b", "", "", "GET"⟩] ∧
      w1.rules = [⟨"p", "9", "/a", "GET", "", "", ""⟩] ∧
      w1.syncedCachedEnforcer = none ∧ w1.once = false :=
  UpdateApi_rejects_collision
    ⟨[⟨1, "/a", "", "", "GET"⟩, ⟨2, "/b", "", "", "GET"⟩],
      [⟨"p", "9", "/a", "GET", "", "", ""⟩], false, none, [], []⟩
    ⟨1, "/b", "", "", "GET"⟩ ⟨1, "/a", "", "", "GET"⟩ ⟨2, "/b", "", "", "GET"⟩
    (by decide) (by decide) rfl (by decide) (by decide) (by decide) (by decide)

/-! ## C4 -/

theorem findCalls_append (s t : List Call) :
    findCalls (s ++ t) = findCalls s ++ findCalls t := by
  induction s with
  | nil => rfl
  | cons c s ih => cases c <;> simp [findCalls, ih]

theorem Count_apply (db : QueryEngine) (conds : List Cond) (w : World) :
    Count db conds w =
      match failing w.faults with
      | some msg => .ret (0, some (Error.db msg))
          { w with trace := w.trace ++ [Call.apiCount conds], faults := w.faults.tail }
      | none => .ret (db.count w.apis conds, none)
          { w with trace := w.trace ++ [Call.apiCount conds], faults := w.faults.tail } := by
  simp only [Count, bind_apply, extCall_apply]
  cases failing w.faults <;> rfl

theorem Find_apply (db : QueryEngine) (q : PageQuery) (w : World) :
    Find db q w =
      match failing w.faults with
      | some msg => .ret ([], some (Error.db msg))
          { w with trace := w.trace ++ [Call.apiFind q], faults := w.faults.tail }
      | none => .ret (db.find w.apis q, none)
          { w with trace := w.trace ++ [Call.apiFind q], faults := w.faults.tail } := by
  simp only [Find, bind_apply, extCall_apply]
  cases failing w.faults <;> rfl

/-- C4: assume the count query succeeds. (1) For a non-empty order string
outside the allow-list, `GetAPIInfoList` returns the illegal-order error with
an empty list and issues no paginated query (the count is its only external
call). (2) For an order string of the allow-list it issues one paginated query
whose ORDER BY expression is exactly `order`, or `order ++ " desc"` when `desc`
is set, and returns what that query answers. (3) For the empty order string it
issues one paginated query ordered by "api_group" and returns what that query
answers: no allow-list error is raised, and the error is nil when the query
succeeds. -/
theorem GetAPIInfoList_order_allow_list (db : QueryEngine) (w : World) (api : SysApi)
    (info : PageInfo) (order : String) (desc : Bool) (hc : failing w.faults = none) :
    (order ≠ "" → order ∉ orderMap →
      ∃ w1, GetAPIInfoList db api info order desc w =
          .ret ([], db.count w.apis (whereConds api),
            some (Error.new ("非法的排序字段: " ++ order))) w1 ∧
        w1.trace = w.trace ++ [Call.apiCount (whereConds api)] ∧
        findCalls w1.trace = findCalls w.trace) ∧
    (order ∈ orderMap →
      ∃ w1, GetAPIInfoList db api info order desc w =
          .ret (match failing w.faults.tail with
            | some msg => ([], db.count w.apis (whereConds api), some (Error.db msg))
            | none => (db.find w.apis ⟨whereConds api, info.PageSize, pageOffset info,
                if desc then order ++ " desc" else order⟩,
                db.count w.apis (whereConds api), none)) w1 ∧
        findCalls w1.trace = findCalls w.trace ++
          [⟨whereConds api, info.PageSize, pageOffset info,
            if desc then order ++ " desc" else order⟩]) ∧
    (order = "" →
      ∃ w1, GetAPIInfoList db api info order desc w =
          .ret (match failing w.faults.tail with
            | some msg => ([], db.count w.apis (whereConds api), some (Error.db msg))
            | none => (db.find w.apis ⟨whereConds api, info.PageSize, pageOffset info,
                "api_group"⟩, db.count w.apis (whereConds api), none)) w1 ∧
        findCalls w1.trace = findCalls w.trace ++
          [⟨whereConds api, info.PageSize, pageOffset info, "api_group"⟩]) := by
  refine ⟨fun hne hnot => ?_, fun hin => ?_, fun hemp => ?_⟩
  · refine ⟨{ w with trace := w.trace ++ [Call.apiCount (whereConds api)],
                     faults := w.faults.tail }, ?_, rfl, ?_⟩
    · simp only [GetAPIInfoList, bind_apply, Count_apply, hc]
      simp [hne, hnot, pure_apply]
    · simp [findCalls_append, findCalls]
  · have hne : order ≠ "" := by
      rintro rfl
      simp [orderMap] at hin
    refine ⟨{ w with trace := w.trace ++ [Call.apiCount (whereConds api)] ++
                [Call.apiFind ⟨whereConds api, info.PageSize, pageOffset info,
                  if desc then order ++ " desc" else order⟩],
                     faults := w.faults.tail.tail }, ?_, ?_⟩
    · simp only [GetAPIInfoList, bind_apply, Count_apply, hc]
      simp only [ne_eq, not_true_eq_false, if_false, hne, not_false_eq_true, if_true, hin,
        bind_apply, Find_apply]
      cases failing w.faults.tail <;> rfl
    · simp [findCalls_append, findCalls]
  · subst hemp
    refine ⟨{ w with trace := w.trace ++ [Call.apiCount (whereConds api)] ++
                [Call.apiFind ⟨whereConds api, info.PageSize, pageOffset info, "api_group"⟩],
                     faults := w.faults.tail.tail }, ?_, ?_⟩
    · simp only [GetAPIInfoList, bind_apply, Count_apply, hc]
      simp only [ne_eq, not_true_eq_false, if_false, bind_apply, Find_apply]
      cases failing w.faults.tail <;> rfl
    · simp [findCalls_append, findCalls]

/-! ## Frame conditions -/

theorem Keeps.bind {α β γ : Type} {f : World → β} {x : M α} {g : α → M γ}
    (hx : Keeps f x) (hg : ∀ a, Keeps f (g a)) : Keeps f (x >>= g) := by
  intro w
  have h1 := hx w
  show f ((x >>= g) w).world = f w
  rw [bind_apply]
  cases h : x w with
  | ret a w1 =>
    rw [h] at h1
    exact (hg a w1).trans h1
  | panic w1 =>
    rw [h] at h1
    exact h1

theorem Keeps.pure {α β : Type} {f : World → β} (a : α) : Keeps f (pure a : M α) :=
  fun _ => rfl

theorem Keeps.panic {α β : Type} {f : World → β} : Keeps f (panic : M α) :=
  fun _ => rfl

theorem Keeps.getWorld {β : Type} {f : World → β} : Keeps f getWorld :=
  fun _ => rfl

theorem Keeps.modifyWorld {β : Type} {f : World → β} {g : World → World}
    (h : ∀ w, f (g w) = f w) : Keeps f (modifyWorld g) := h

theorem Keeps.onceDo {β : Type} {f : World → β} {x : M Unit} (hx : Keeps f x)
    (h : ∀ w, f { w with once := true } = f w) : Keeps f (onceDo x) := by
  intro w
  have h1 := hx w
  show f (Gva.onceDo x w).world = f w
  rw [onceDo_apply]
  split
  · rfl
  · cases hxw : x w with
    | ret a w1 => rw [hxw] at h1; exact (h w1).trans h1
    | panic w1 => rw [hxw] at h1; exact (h w1).trans h1

theorem keeps_apis_extCall (c : Call) : Keeps World.apis (extCall c) := fun _ => rfl

theorem keeps_apis_logCall (c : Call) : Keeps World.apis (logCall c) := fun _ => rfl

theorem keeps_apis_nextFault : Keeps World.apis nextFault := fun _ => rfl

theorem keeps_apis_Casbin : Keeps World.apis Casbin := by
  unfold Casbin construct NewSyncedCachedEnforcer SetExpireTime LoadPolicy
  repeat (first
    | exact Keeps.pure _ | exact Keeps.panic | exact Keeps.getWorld
    | exact keeps_apis_extCall _ | exact keeps_apis_logCall _ | exact keeps_apis_nextFault
    | exact Keeps.modifyWorld (fun _ => rfl)
    | refine Keeps.onceDo ?_ (fun _ => rfl)
    | refine Keeps.bind ?_ (fun _ => ?_) | split)

theorem keeps_apis_ClearCasbin (v : Nat) (p : List String) :
    Keeps World.apis (ClearCasbin v p) := by
  unfold ClearCasbin RemoveFilteredPolicy
  repeat (first
    | exact Keeps.pure _ | exact Keeps.panic | exact Keeps.getWorld
    | exact keeps_apis_Casbin
    | exact keeps_apis_extCall _ | exact keeps_apis_logCall _ | exact keeps_apis_nextFault
    | exact Keeps.modifyWorld (fun _ => rfl)
    | refine Keeps.bind ?_ (fun _ => ?_) | split)

theorem keeps_apis_UpdateCasbinApi (oldPath newPath oldMethod newMethod : String) :
    Keeps World.apis (UpdateCasbinApi oldPath newPath oldMethod newMethod) := by
  unfold UpdateCasbinApi Updates LoadPolicy
  repeat (first
    | exact Keeps.pure _ | exact Keeps.panic | exact Keeps.getWorld
    | exact keeps_apis_Casbin
    | exact keeps_apis_extCall _ | exact keeps_apis_logCall _ | exact keeps_apis_nextFault
    | exact Keeps.modifyWorld (fun _ => rfl)
    | refine Keeps.bind ?_ (fun _ => ?_) | split)

theorem keeps_apis_clearEach (l : List SysApi) : Keeps World.apis (clearEach l) := by
  induction l with
  | nil => exact Keeps.pure _
  | cons a rest ih =>
    unfold clearEach
    exact Keeps.bind (keeps_apis_ClearCasbin _ _) (fun _ => ih)

theorem Shrinks.of_keeps {α : Type} {x : M α} (h : Keeps World.apis x) : Shrinks x := by
  intro w
  rw [h w]

theorem Shrinks.seq {α γ : Type} {x : M α} {g : α → M γ}
    (hx : Shrinks x) (hg : ∀ a, Shrinks (g a)) : Shrinks (x >>= g) := by
  intro w
  have h1 := hx w
  show ((x >>= g) w).world.apis.Sublist w.apis
  rw [bind_apply]
  cases h : x w with
  | ret a w1 =>
    rw [h] at h1
    exact (hg a w1).trans h1
  | panic w1 =>
    rw [h] at h1
    exact h1

theorem shrinks_DeleteApi (api : SysApi) : Shrinks (DeleteApi api) := by
  unfold DeleteApi First Delete
  repeat (first
    | exact Shrinks.of_keeps (Keeps.pure _)
    | exact Shrinks.of_keeps Keeps.getWorld
    | exact Shrinks.of_keeps (keeps_apis_extCall _)
    | exact Shrinks.of_keeps (keeps_apis_ClearCasbin _ _)
    | exact (fun w => List.filter_sublist _)
    | refine Shrinks.seq ?_ (fun _ => ?_) | split)

theorem shrinks_DeleteApisByIds (ids : List Int) : Shrinks (DeleteApisByIds ids) := by
  unfold DeleteApisByIds FindDelete
  repeat (first
    | exact Shrinks.of_keeps (Keeps.pure _)
    | exact Shrinks.of_keeps Keeps.getWorld
    | exact Shrinks.of_keeps (keeps_apis_extCall _)
    | exact Shrinks.of_keeps (keeps_apis_clearEach _)
    | exact (fun w => List.filter_sublist _)
    | refine Shrinks.seq ?_ (fun _ => ?_) | split)

theorem PairUnique.of_sublist {s t : List SysApi} (h : s.Sublist t) (hu : PairUnique t) :
    PairUnique s :=
  List.Nodup.sublist (h.map _) hu

theorem KeysValid.of_shrunk {s t : List SysApi} (h : s.Sublist t) (hk : KeysValid t) :
    KeysValid s :=
  ⟨List.Nodup.sublist (h.map _) hk.1, fun r hr => hk.2 r (h.subset hr)⟩

theorem Create_apply (api : SysApi) (w : World) :
    Create api w =
      match failing w.faults with
      | some msg => .ret (some (Error.db msg))
          { w with trace := w.trace ++ [Call.apiCreate api], faults := w.faults.tail }
      | none =>
        if api.ID = 0 then
          .ret none { w with
            apis := w.apis ++ [{ api with ID := freshID w.apis }],
            trace := w.trace ++ [Call.apiCreate api], faults := w.faults.tail }
        else if w.apis.any (fun r => r.ID = api.ID) then
          .ret (some (Error.db "duplicate primary key"))
            { w with trace := w.trace ++ [Call.apiCreate api], faults := w.faults.tail }
        else
          .ret none { w with
            apis := w.apis ++ [api],
            trace := w.trace ++ [Call.apiCreate api], faults := w.faults.tail } := by
  simp only [Create, bind_apply, extCall_apply]
  cases failing w.faults with
  | some msg => rfl
  | none =>
    simp only [bind_apply, getWorld_apply]
    split
    · rfl
    · split <;> rfl

theorem Save_apply (api : SysApi) (w : World) :
    Save api w =
      match failing w.faults with
      | some msg => .ret (some (Error.db msg))
          { w with trace := w.trace ++ [Call.apiSave api], faults := w.faults.tail }
      | none => .ret none { w with
          apis := upsert api w.apis,
          trace := w.trace ++ [Call.apiSave api], faults := w.faults.tail } := by
  simp only [Save, bind_apply, extCall_apply]
  cases failing w.faults <;> rfl

theorem lt_freshID {t : List SysApi} {r : SysApi} (h : r ∈ t) : r.ID < freshID t := by
  induction t with
  | nil => simp at h
  | cons a rest ih =>
    simp only [freshID, List.map_cons, List.foldr_cons] at ih ⊢
    rcases List.mem_cons.mp h with rfl | h1
    · omega
    · have := ih h1
      omega

/-- What `CreateApi` does to the record table: nothing, or, when no record
carries the pair of `api`, one row with that pair under an unused non-zero
key is appended. -/
theorem CreateApi_apis (api : SysApi) (w : World) :
    (CreateApi api w).world.apis = w.apis ∨
    ((∀ r ∈ w.apis, ¬ (r.Path = api.Path ∧ r.Method = api.Method)) ∧
      ∃ id, id ≠ 0 ∧ (∀ r ∈ w.apis, r.ID ≠ id) ∧
        (CreateApi api w).world.apis = w.apis ++ [{ api with ID := id }]) := by
  simp only [CreateApi, bind_apply, First_apply]
  cases failing w.faults with
  | some msg => exact Or.inl rfl
  | none =>
    cases hq : firstWhere (fun x => decide (x.Path = api.Path ∧ x.Method = api.Method)) w.apis with
    | some r => exact Or.inl rfl
    | none =>
      have hno : ∀ r ∈ w.apis, ¬ (r.Path = api.Path ∧ r.Method = api.Method) := by
        intro r hr
        simpa using firstWhere_eq_none.mp hq r hr
      simp only [not_true_eq_false, if_false, Create_apply]
      cases failing w.faults.tail with
      | some msg => exact Or.inl rfl
      | none =>
        by_cases h0 : api.ID = 0
        · refine Or.inr ⟨hno, freshID w.apis, Nat.succ_ne_zero _, ?_, ?_⟩
          · intro r hr
            exact Nat.ne_of_lt (lt_freshID hr)
          · simp [h0, Outcome.world]
        · by_cases hany : w.apis.any (fun r => r.ID = api.ID) = true
          · left
            simp [h0, hany, Outcome.world]
          · refine Or.inr ⟨hno, api.ID, h0, ?_, ?_⟩
            · intro r hr he
              exact hany (List.any_eq_true.mpr ⟨r, hr, by simpa using he⟩)
            · simp only [List.any_eq_true, decide_eq_true_eq] at hany
              simp [h0, hany, Outcome.world]

theorem PairUnique.append_row {t : List SysApi} {a : SysApi} (hu : PairUnique t)
    (hno : ∀ r ∈ t, ¬ (r.Path = a.Path ∧ r.Method = a.Method)) : PairUnique (t ++ [a]) := by
  unfold PairUnique at hu ⊢
  rw [List.map_append, List.nodup_append]
  refine ⟨hu, by simp, ?_⟩
  intro x hx hx2
  simp only [List.map_cons, List.map_nil, List.mem_singleton] at hx2
  obtain ⟨r, hr, rfl⟩ := List.mem_map.mp hx
  simp only [Prod.mk.injEq] at hx2
  exact hno r hr hx2

theorem KeysValid.append_key {t : List SysApi} {a : SysApi} (hk : KeysValid t)
    (h0 : a.ID ≠ 0) (hno : ∀ r ∈ t, r.ID ≠ a.ID) : KeysValid (t ++ [a]) := by
  refine ⟨?_, ?_⟩
  · rw [List.map_append, List.nodup_append]
    refine ⟨hk.1, by simp, ?_⟩
    intro x hx hx2
    simp only [List.map_cons, List.map_nil, List.mem_singleton] at hx2
    obtain ⟨r, hr, rfl⟩ := List.mem_map.mp hx
    exact hno r hr hx2
  · intro r hr
    rcases List.mem_append.mp hr with h | h
    · exact hk.2 r h
    · rw [List.mem_singleton.mp h]; exact h0

theorem First_spec (c : Call) (p : SysApi → Bool) (w : World) :
    ∃ r w1, First c p w = .ret r w1 ∧ w1.apis = w.apis ∧ w1.rules = w.rules ∧
      (r.2 = none → r.1 ∈ w.apis ∧ p r.1 = true) ∧
      (r.2 = some Error.ErrRecordNotFound → ∀ x ∈ w.apis, p x = false) := by
  rw [First_apply]
  cases failing w.faults with
  | some msg =>
    exact ⟨_, _, rfl, rfl, rfl, fun h => Option.noConfusion h,
      fun h => Error.noConfusion (Option.some.inj h)⟩
  | none =>
    cases hq : firstWhere p w.apis with
    | some r =>
      exact ⟨_, _, rfl, rfl, rfl, fun _ => firstWhere_some hq, fun h => Option.noConfusion h⟩
    | none =>
      exact ⟨_, _, rfl, rfl, rfl, fun h => Option.noConfusion h,
        fun _ => firstWhere_eq_none.mp hq⟩

theorem finish_apis (api oldApi : SysApi) (err : Option Error) (w : World) :
    (UpdateApi.finish api oldApi err w).world.apis = w.apis ∨
    (err = none ∧ (UpdateApi.finish api oldApi err w).world.apis = upsert api w.apis) := by
  unfold UpdateApi.finish
  by_cases he : err = none
  · subst he
    simp only [ne_eq, not_true_eq_false, if_false, bind_apply]
    have hk := keeps_apis_UpdateCasbinApi oldApi.Path api.Path oldApi.Method api.Method w
    cases hU : UpdateCasbinApi oldApi.Path api.Path oldApi.Method api.Method w with
    | panic w1 =>
      rw [hU] at hk
      exact Or.inl hk
    | ret e w1 =>
      rw [hU] at hk
      have hk1 : w1.apis = w.apis := hk
      by_cases hee : e = none
      · subst hee
        simp only [not_true_eq_false, if_false, Save_apply]
        cases failing w1.faults with
        | some msg => exact Or.inl hk1
        | none =>
          right
          refine ⟨trivial, ?_⟩
          show upsert api w1.apis = upsert api w.apis
          rw [hk1]
      · simp only [hee, not_false_eq_true, if_true]
        exact Or.inl hk1
  · simp only [ne_eq, he, not_false_eq_true, if_true]
    exact Or.inl rfl

/-- What `UpdateApi` does to a table of unique pairs: nothing, or, when a record
with the key of `api` exists and every record carrying the new pair has that
key, an upsert of `api`. -/
theorem UpdateApi_apis (api : SysApi) (w : World) (hu : PairUnique w.apis) :
    (UpdateApi api w).world.apis = w.apis ∨
    ((∃ o ∈ w.apis, o.ID = api.ID) ∧
      (∀ r ∈ w.apis, r.Path = api.Path ∧ r.Method = api.Method → r.ID = api.ID) ∧
      (UpdateApi api w).world.apis = upsert api w.apis) := by
  have hfin : ∀ (o : SysApi) (err : Option Error) (w1 : World), w1.apis = w.apis →
      (err = none → (∃ o ∈ w.apis, o.ID = api.ID) ∧
        (∀ r ∈ w.apis, r.Path = api.Path ∧ r.Method = api.Method → r.ID = api.ID)) →
      ((UpdateApi.finish api o err w1).world.apis = w.apis ∨
        ((∃ o ∈ w.apis, o.ID = api.ID) ∧
          (∀ r ∈ w.apis, r.Path = api.Path ∧ r.Method = api.Method → r.ID = api.ID) ∧
          (UpdateApi.finish api o err w1).world.apis = upsert api w.apis)) := by
    intro o err w1 h1 hc
    rcases finish_apis api o err w1 with h | ⟨he, h⟩
    · exact Or.inl (h.trans h1)
    · exact Or.inr ⟨(hc he).1, (hc he).2, by rw [h, h1]⟩
  simp only [UpdateApi, bind_apply]
  obtain ⟨⟨o, err⟩, w1, hF, h1, -, hfound, -⟩ :=
    First_spec (Call.apiFirstById api.ID) (fun x => x.ID = api.ID) w
  rw [hF]
  simp only []
  split
  · simp only [bind_apply]
    obtain ⟨⟨d, derr⟩, w2, hD, h2, -, hdfound, hdnone⟩ :=
      First_spec (Call.apiFirstByPair api.Path api.Method)
        (fun x => x.Path = api.Path ∧ x.Method = api.Method) w1
    rw [hD]
    rw [h1] at hdfound hdnone
    cases derr with
    | some e =>
      simp only []
      split
      · exact Or.inl (h2.trans h1)
      · rename_i hnf
        have he : e = Error.ErrRecordNotFound := not_not.mp hnf
        subst he
        refine hfin o err w2 (h2.trans h1) (fun herr => ?_)
        have ho := hfound herr
        refine ⟨⟨o, ho.1, by simpa using ho.2⟩, ?_⟩
        intro r hr hp
        have := hdnone rfl r hr
        simp [hp] at this
    | none =>
      simp only []
      split
      · exact Or.inl (h2.trans h1)
      · rename_i hdid
        have hdID : d.ID = api.ID := not_not.mp hdid
        have hd := hdfound rfl
        refine hfin o err w2 (h2.trans h1) (fun herr => ?_)
        have ho := hfound herr
        refine ⟨⟨o, ho.1, by simpa using ho.2⟩, ?_⟩
        intro r hr hp
        have hrd : r = d := List.inj_on_of_nodup_map hu hr hd.1 (by
          have := hd.2
          simp only [decide_eq_true_eq] at this
          simp [hp.1, hp.2, this.1, this.2])
        rw [hrd]
        exact hdID
  · rename_i hsame
    push_neg at hsame
    refine hfin o err w1 h1 (fun herr => ?_)
    have ho := hfound herr
    refine ⟨⟨o, ho.1, by simpa using ho.2⟩, ?_⟩
    intro r hr hp
    have hro : r = o := List.inj_on_of_nodup_map hu hr ho.1 (by
      simp [hp.1, hp.2, hsame.1, hsame.2])
    rw [hro]
    simpa using ho.2

theorem map_replace_ID (api : SysApi) (t : List SysApi) :
    (t.map (fun r => if r.ID = api.ID then api else r)).map SysApi.ID = t.map SysApi.ID := by
  induction t with
  | nil => rfl
  | cons a rest ih =>
    simp only [List.map_cons, ih, List.cons.injEq, and_true]
    split
    · rename_i h; exact h.symm
    · rfl

theorem map_replace_of_absent (api : SysApi) (t : List SysApi) (h : ∀ r ∈ t, r.ID ≠ api.ID) :
    t.map (fun r => if r.ID = api.ID then api else r) = t := by
  induction t with
  | nil => rfl
  | cons a rest ih =>
    simp only [List.map_cons]
    rw [ih (fun r hr => h r (List.mem_cons_of_mem _ hr)), if_neg (h a (List.mem_cons_self _ _))]

theorem PairUnique.replace {t : List SysApi} (api : SysApi) (hk : (t.map SysApi.ID).Nodup)
    (hu : PairUnique t)
    (hC : ∀ r ∈ t, r.Path = api.Path ∧ r.Method = api.Method → r.ID = api.ID) :
    PairUnique (t.map (fun r => if r.ID = api.ID then api else r)) := by
  induction t with
  | nil => exact hu
  | cons a rest ih =>
    have hk2 := List.nodup_cons.mp hk
    have hu2 : (a.Path, a.Method) ∉ rest.map (fun r => (r.Path, r.Method)) ∧
        PairUnique rest := List.nodup_cons.mp hu
    have ihr := ih hk2.2 hu2.2 (fun r hr => hC r (List.mem_cons_of_mem _ hr))
    by_cases ha : a.ID = api.ID
    · have habs : ∀ r ∈ rest, r.ID ≠ api.ID := by
        intro r hr he
        exact hk2.1 (List.mem_map.mpr ⟨r, hr, he.trans ha.symm⟩)
      simp only [List.map_cons, if_pos ha, map_replace_of_absent api rest habs]
      refine List.nodup_cons.mpr ⟨?_, hu2.2⟩
      intro hmem
      obtain ⟨r, hr, hp⟩ := List.mem_map.mp hmem
      simp only [Prod.mk.injEq] at hp
      exact habs r hr (hC r (List.mem_cons_of_mem _ hr) hp)
    · simp only [List.map_cons, if_neg ha]
      refine List.nodup_cons.mpr ⟨?_, ihr⟩
      intro hmem
      obtain ⟨r, hr, hp⟩ := List.mem_map.mp hmem
      obtain ⟨r0, hr0, rfl⟩ := List.mem_map.mp hr
      by_cases h0 : r0.ID = api.ID
      · simp only [if_pos h0, Prod.mk.injEq] at hp
        exact ha (hC a (List.mem_cons_self _ _) ⟨hp.1.symm, hp.2.symm⟩)
      · simp only [if_neg h0] at hp
        exact hu2.1 (List.mem_map.mpr ⟨r0, hr0, hp⟩)

theorem upsert_of_present {t : List SysApi} {api o : SysApi} (hk : KeysValid t) (ho : o ∈ t)
    (hid : o.ID = api.ID) :
    upsert api t = t.map (fun r => if r.ID = api.ID then api else r) := by
  have h0 : api.ID ≠ 0 := hid ▸ hk.2 o ho
  have hany : t.any (fun r => decide (r.ID = api.ID)) = true :=
    List.any_eq_true.mpr ⟨o, ho, by simpa using hid⟩
  simp [upsert, h0, hany]

/-! ## C7 -/

/-- C7: on a table with valid primary keys, if no two records share the same
(Path, Method) pair, then after any call of `CreateApi`, `UpdateApi`,
`DeleteApi` or `DeleteApisByIds`, with any arguments and however the call ends
(nil, error or panic), still no two records share the same pair, and the
primary keys are still valid. -/
theorem pair_unique_preserved (w : World) (hk : KeysValid w.apis) (hu : PairUnique w.apis) :
    (∀ api, PairUnique (CreateApi api w).world.apis ∧ KeysValid (CreateApi api w).world.apis) ∧
    (∀ api, PairUnique (UpdateApi api w).world.apis ∧ KeysValid (UpdateApi api w).world.apis) ∧
    (∀ api, PairUnique (DeleteApi api w).world.apis ∧ KeysValid (DeleteApi api w).world.apis) ∧
    (∀ ids, PairUnique (DeleteApisByIds ids w).world.apis ∧
      KeysValid (DeleteApisByIds ids w).world.apis) := by
  refine ⟨fun api => ?_, fun api => ?_, fun api => ?_, fun ids => ?_⟩
  · rcases CreateApi_apis api w with h | ⟨hno, id, h0, hid, h⟩
    · rw [h]; exact ⟨hu, hk⟩
    · rw [h]
      exact ⟨hu.append_row hno, hk.append_key h0 hid⟩
  · rcases UpdateApi_apis api w hu with h | ⟨⟨o, ho, hoid⟩, hC, h⟩
    · rw [h]; exact ⟨hu, hk⟩
    · rw [h, upsert_of_present hk ho hoid]
      refine ⟨PairUnique.replace api hk.1 hu hC, ?_, ?_⟩
      · rw [map_replace_ID]; exact hk.1
      · intro r hr
        obtain ⟨r0, hr0, rfl⟩ := List.mem_map.mp hr
        split
        · exact hoid ▸ hk.2 o ho
        · exact hk.2 r0 hr0
  · exact ⟨hu.of_sublist (shrinks_DeleteApi api w), hk.of_shrunk (shrinks_DeleteApi api w)⟩
  · exact ⟨hu.of_sublist (shrinks_DeleteApisByIds ids w),
      hk.of_shrunk (shrinks_DeleteApisByIds ids w)⟩

/-! ## C8 -/

theorem keeps_clearTrace_Casbin : Keeps clearTrace Casbin := by
  unfold Casbin construct NewSyncedCachedEnforcer SetExpireTime LoadPolicy
  repeat (first
    | exact Keeps.pure _ | exact Keeps.panic | exact Keeps.getWorld
    | exact Keeps.modifyWorld (fun _ => rfl)
    | refine Keeps.onceDo ?_ (fun _ => rfl)
    | refine Keeps.bind ?_ (fun _ => ?_) | split
    | exact (fun w => by
        simp [clearTrace, extCall_apply, logCall_apply, Outcome.world, clearCalls_append,
          clearCalls]))

theorem keeps_clearTrace_RemoveFilteredPolicy (e : Option Enforcer) (v : Nat)
    (p : List String) : Keeps clearTrace (RemoveFilteredPolicy e v p) := by
  unfold RemoveFilteredPolicy
  repeat (first
    | exact Keeps.pure _ | exact Keeps.panic | exact Keeps.getWorld
    | exact Keeps.modifyWorld (fun _ => rfl)
    | refine Keeps.bind ?_ (fun _ => ?_) | split
    | exact (fun w => by
        simp [clearTrace, nextFault_apply, logCall_apply, Outcome.world, clearCalls_append,
          clearCalls]))

/-- However `ClearCasbin v p` ends, it is recorded once, with its arguments. -/
theorem clearTrace_ClearCasbin (v : Nat) (p : List String) (w : World) :
    clearTrace (ClearCasbin v p w).world = clearTrace w ++ [(v, p)] := by
  have h : Keeps clearTrace (Casbin >>= fun e =>
      RemoveFilteredPolicy e v p >>= fun r => (pure r.1 : M Bool)) :=
    Keeps.bind keeps_clearTrace_Casbin (fun e =>
      Keeps.bind (keeps_clearTrace_RemoveFilteredPolicy e v p) (fun _ => Keeps.pure _))
  have h1 := h { w with trace := w.trace ++ [Call.clearCasbin v p] }
  simp only [clearTrace, clearCalls_append, clearCalls] at h1
  exact h1

theorem clearTrace_clearEach (l : List SysApi) (w w3 : World)
    (h : clearEach l w = .ret () w3) :
    clearTrace w3 = clearTrace w ++ l.map (fun a => (1, [a.Path, a.Method])) := by
  induction l generalizing w with
  | nil =>
    simp only [clearEach, pure_apply, Outcome.ret.injEq, true_and] at h
    simp [← h]
  | cons a rest ih =>
    have h1 := clearTrace_ClearCasbin 1 [a.Path, a.Method] w
    simp only [clearEach, bind_apply] at h
    cases hc : ClearCasbin 1 [a.Path, a.Method] w with
    | ret b w1 =>
      rw [hc] at h1 h
      simp only [Outcome.world] at h1
      rw [ih w1 h, h1]
      simp
    | panic w1 =>
      rw [hc] at h
      exact Outcome.noConfusion h

theorem Casbin_of_once (w : World) (h : w.once = true) :
    Casbin w = .ret w.syncedCachedEnforcer w := by
  simp only [Casbin, bind_apply, onceDo_apply, h, if_true, getWorld_apply, pure_apply]

theorem RemoveFilteredPolicy_ready (e : Enforcer) (v : Nat) (p : List String) (w : World)
    (h : Ready w) :
    ∃ r w1, RemoveFilteredPolicy (some e) v p w = .ret r w1 ∧ Ready w1 := by
  obtain ⟨h1, h2⟩ := h
  obtain ⟨x, hx⟩ := Option.ne_none_iff_exists'.mp h2
  simp only [RemoveFilteredPolicy, bind_apply, logCall_apply]
  split
  · exact ⟨_, _, rfl, h1, h2⟩
  · simp only [bind_apply, nextFault_apply]
    cases failing w.faults with
    | some msg => exact ⟨_, _, rfl, h1, h2⟩
    | none =>
      refine ⟨_, _, rfl, h1, ?_⟩
      simp [hx]

theorem ClearCasbin_ready (v : Nat) (p : List String) (w : World) (h : Ready w) :
    ∃ b w1, ClearCasbin v p w = .ret b w1 ∧ Ready w1 := by
  obtain ⟨x, hx⟩ := Option.ne_none_iff_exists'.mp h.2
  have hr : Ready { w with trace := w.trace ++ [Call.clearCasbin v p] } := h
  obtain ⟨r, w1, hR, hw1⟩ := RemoveFilteredPolicy_ready x v p _ hr
  refine ⟨r.1, w1, ?_, hw1⟩
  simp only [ClearCasbin, bind_apply, logCall_apply]
  rw [Casbin_of_once _ hr.1]
  simp only [hx] at hR ⊢
  simp only [hR, pure_apply]

theorem clearEach_ready (l : List SysApi) (w : World) (h : Ready w) :
    ∃ w1, clearEach l w = .ret () w1 ∧ Ready w1 := by
  induction l generalizing w with
  | nil => exact ⟨w, rfl, h⟩
  | cons a rest ih =>
    obtain ⟨b, w1, hc, hw1⟩ := ClearCasbin_ready 1 [a.Path, a.Method] w h
    obtain ⟨w2, hc2, hw2⟩ := ih w1 hw1
    exact ⟨w2, by simp only [clearEach, bind_apply, hc, hc2], hw2⟩

theorem firstWhere_byID {t : List SysApi} {entity : SysApi} (hk : KeysValid t)
    (he : entity ∈ t) :
    firstWhere (fun x => decide (x.ID = entity.ID)) t = some entity := by
  cases hq : firstWhere (fun x => decide (x.ID = entity.ID)) t with
  | none =>
    have := firstWhere_eq_none.mp hq entity he
    simp at this
  | some r =>
    have hr := firstWhere_some hq
    have : r = entity := List.inj_on_of_nodup_map hk.1 hr.1 he (by simpa using hr.2)
    rw [this]

theorem Delete_apply (entity : SysApi) (w : World) :
    Delete entity w =
      match failing w.faults with
      | some msg => .ret (some (Error.db msg))
          { w with trace := w.trace ++ [Call.apiDelete entity.ID], faults := w.faults.tail }
      | none =>
        if entity.ID = 0 then
          .ret (some (Error.db "WHERE conditions required"))
            { w with trace := w.trace ++ [Call.apiDelete entity.ID], faults := w.faults.tail }
        else
          .ret none { w with
            apis := w.apis.filter (fun r => r.ID ≠ entity.ID),
            trace := w.trace ++ [Call.apiDelete entity.ID], faults := w.faults.tail } := by
  simp only [Delete, bind_apply, extCall_apply]
  cases failing w.faults with
  | some msg => rfl
  | none =>
    simp only []
    split <;> rfl

theorem FindDelete_apply (ids : List Int) (w : World) :
    FindDelete ids w =
      match failing w.faults with
      | some msg => .ret ([], some (Error.db msg))
          { w with trace := w.trace ++ [Call.apiFindByIds ids], faults := w.faults.tail }
      | none =>
        match failing w.faults.tail with
        | some msg => .ret (w.apis.filter (fun r => (r.ID : Int) ∈ ids), some (Error.db msg))
            { w with
              trace := w.trace ++ [Call.apiFindByIds ids] ++ [Call.apiDeleteMany
                ((w.apis.filter (fun r => (r.ID : Int) ∈ ids)).map SysApi.ID)],
              faults := w.faults.tail.tail }
        | none => .ret (w.apis.filter (fun r => (r.ID : Int) ∈ ids), none)
            { w with
              apis := w.apis.filter (fun r => ¬ ((r.ID : Int) ∈ ids)),
              trace := w.trace ++ [Call.apiFindByIds ids] ++ [Call.apiDeleteMany
                ((w.apis.filter (fun r => (r.ID : Int) ∈ ids)).map SysApi.ID)],
              faults := w.faults.tail.tail } := by
  simp only [FindDelete, bind_apply, extCall_apply]
  cases failing w.faults with
  | some msg => rfl
  | none =>
    simp only [bind_apply, getWorld_apply, extCall_apply]
    cases failing w.faults.tail <;> rfl

/-- C8: cascade cleanup failures are swallowed. Assume the lookup and the
deletion are answered by the database without failure.
(1) `DeleteApi`, for an api whose ID is that of the record `entity`: whatever
`ClearCasbin` reports (`true` or `false`), `DeleteApi` returns nil; however the
call ends, `ClearCasbin` is invoked exactly once, with field index 1 and the
(Path, Method) of the deleted record; and once the enforcer is constructed the
call does return nil, whatever failures are injected into the cleanup.
(2) `DeleteApisByIds`: whatever each per-record `ClearCasbin` reports, the call
returns nil, and `ClearCasbin` has been invoked once per deleted record, with
field index 1 and the record's (Path, Method); once the enforcer is constructed
the call does return nil. -/
theorem cascade_failures_swallowed (w : World)
    (h1 : failing w.faults = none) (h2 : failing w.faults.tail = none) :
    (∀ api entity, KeysValid w.apis → entity ∈ w.apis → entity.ID = api.ID →
      (∀ b w3, ClearCasbin 1 [entity.Path, entity.Method]
          { w with
            apis := w.apis.filter (fun r => r.ID ≠ entity.ID),
            trace := w.trace ++ [Call.apiFirstById api.ID] ++ [Call.apiDelete entity.ID],
            faults := w.faults.tail.tail } = .ret b w3 →
        DeleteApi api w = .ret none w3) ∧
      clearTrace (DeleteApi api w).world = clearTrace w ++ [(1, [entity.Path, entity.Method])] ∧
      (Ready w → ∃ w3, DeleteApi api w = .ret none w3)) ∧
    (∀ ids,
      (∀ w3, clearEach (w.apis.filter (fun r => (r.ID : Int) ∈ ids))
          { w with
            apis := w.apis.filter (fun r => ¬ ((r.ID : Int) ∈ ids)),
            trace := w.trace ++ [Call.apiFindByIds ids] ++ [Call.apiDeleteMany
              ((w.apis.filter (fun r => (r.ID : Int) ∈ ids)).map SysApi.ID)],
            faults := w.faults.tail.tail } = .ret () w3 →
        DeleteApisByIds ids w = .ret none w3 ∧
        clearTrace w3 = clearTrace w ++
          (w.apis.filter (fun r => (r.ID : Int) ∈ ids)).map (fun a => (1, [a.Path, a.Method]))) ∧
      (Ready w → ∃ w3, DeleteApisByIds ids w = .ret none w3)) := by
  refine ⟨fun api entity hk he hid => ?_, fun ids => ?_⟩
  · have hF := firstWhere_byID hk he
    rw [hid] at hF
    have h0 : entity.ID ≠ 0 := hk.2 entity he
    have hD : DeleteApi api w =
        (ClearCasbin 1 [entity.Path, entity.Method] >>= fun _ => (pure none : M (Option Error)))
          { w with
            apis := w.apis.filter (fun r => r.ID ≠ entity.ID),
            trace := w.trace ++ [Call.apiFirstById api.ID] ++ [Call.apiDelete entity.ID],
            faults := w.faults.tail.tail } := by
      simp only [DeleteApi, bind_apply, First_apply, h1, hF]
      simp only [reduceCtorEq, if_false, bind_apply, Delete_apply, h2, h0, ne_eq,
        not_true_eq_false]
    refine ⟨fun b w3 hc => ?_, ?_, fun hr => ?_⟩
    · rw [hD, bind_apply, hc]
      rfl
    · rw [hD, bind_apply]
      have ht := clearTrace_ClearCasbin 1 [entity.Path, entity.Method]
        { w with
          apis := w.apis.filter (fun r => r.ID ≠ entity.ID),
          trace := w.trace ++ [Call.apiFirstById api.ID] ++ [Call.apiDelete entity.ID],
          faults := w.faults.tail.tail }
      have hpre : clearTrace { w with
          apis := w.apis.filter (fun r => r.ID ≠ entity.ID),
          trace := w.trace ++ [Call.apiFirstById api.ID] ++ [Call.apiDelete entity.ID],
          faults := w.faults.tail.tail } = clearTrace w := by
        simp [clearTrace, clearCalls_append, clearCalls]
      rw [hpre] at ht
      rw [← ht]
      cases ClearCasbin 1 [entity.Path, entity.Method]
        { w with
          apis := w.apis.filter (fun r => r.ID ≠ entity.ID),
          trace := w.trace ++ [Call.apiFirstById api.ID] ++ [Call.apiDelete entity.ID],
          faults := w.faults.tail.tail } <;> rfl
    · obtain ⟨b, w3, hc, -⟩ := ClearCasbin_ready 1 [entity.Path, entity.Method]
        { w with
          apis := w.apis.filter (fun r => r.ID ≠ entity.ID),
          trace := w.trace ++ [Call.apiFirstById api.ID] ++ [Call.apiDelete entity.ID],
          faults := w.faults.tail.tail } hr
      exact ⟨w3, by rw [hD, bind_apply, hc]; rfl⟩
  · have hD : DeleteApisByIds ids w =
        (clearEach (w.apis.filter (fun r => (r.ID : Int) ∈ ids)) >>= fun _ =>
          (pure none : M (Option Error)))
          { w with
            apis := w.apis.filter (fun r => ¬ ((r.ID : Int) ∈ ids)),
            trace := w.trace ++ [Call.apiFindByIds ids] ++ [Call.apiDeleteMany
              ((w.apis.filter (fun r => (r.ID : Int) ∈ ids)).map SysApi.ID)],
            faults := w.faults.tail.tail } := by
      simp only [DeleteApisByIds, bind_apply, FindDelete_apply, h1, h2]
      simp only [ne_eq, not_true_eq_false, if_false, bind_apply]
    refine ⟨fun w3 hc => ⟨?_, ?_⟩, fun hr => ?_⟩
    · rw [hD, bind_apply, hc]
      rfl
    · rw [clearTrace_clearEach _ _ _ hc]
      simp [clearTrace, clearCalls_append, clearCalls]
    · obtain ⟨w3, hc, -⟩ := clearEach_ready (w.apis.filter (fun r => (r.ID : Int) ∈ ids))
        { w with
          apis := w.apis.filter (fun r => ¬ ((r.ID : Int) ∈ ids)),
          trace := w.trace ++ [Call.apiFindByIds ids] ++ [Call.apiDeleteMany
            ((w.apis.filter (fun r => (r.ID : Int) ∈ ids)).map SysApi.ID)],
          faults := w.faults.tail.tail } hr
      exact ⟨w3, by rw [hD, bind_apply, hc]; rfl⟩

/-! ## C9 -/

theorem construct_apply (w : World) :
    construct w =
      match failing w.faults with
      | some _ => .ret () { w with
          trace := w.trace ++ [Call.newAdapterByDB] ++
            [Call.zapError "适配数据库失败请检查casbin表是否为InnoDB引擎!"],
          faults := w.faults.tail }
      | none =>
        match failing w.faults.tail with
        | some _ => .ret () { w with
            trace := w.trace ++ [Call.newAdapterByDB] ++ [Call.newModelFromString] ++
              [Call.zapError "字符串加载模型失败!"],
            faults := w.faults.tail.tail }
        | none =>
          match failing w.faults.tail.tail with
          | some _ => .panic { w with
              syncedCachedEnforcer := none,
              trace := w.trace ++ [Call.newAdapterByDB] ++ [Call.newModelFromString] ++
                [Call.newSyncedCachedEnforcer],
              faults := w.faults.tail.tail.tail }
          | none => .ret () { w with
              syncedCachedEnforcer := some ⟨loadRules w.rules, 60 * 60⟩,
              trace := w.trace ++ [Call.newAdapterByDB] ++ [Call.newModelFromString] ++
                [Call.newSyncedCachedEnforcer] ++ [Call.setExpireTime (60 * 60)] ++
                [Call.loadPolicy],
              faults := w.faults.tail.tail.tail.tail } := by
  simp only [construct, bind_apply, extCall_apply]
  cases failing w.faults with
  | some m => rfl
  | none =>
    simp only [bind_apply, extCall_apply]
    cases failing w.faults.tail with
    | some m => rfl
    | none =>
      simp only [bind_apply, extCall_apply, NewSyncedCachedEnforcer]
      cases failing w.faults.tail.tail with
      | some m => rfl
      | none =>
        simp only [bind_apply, modifyWorld_apply, getWorld_apply, SetExpireTime, LoadPolicy,
          logCall_apply, extCall_apply]
        cases failing w.faults.tail.tail.tail <;> rfl

theorem Casbin_once_world (w : World) : (Casbin w).world.once = true := by
  simp only [Casbin, bind_apply, onceDo_apply]
  by_cases h : w.once = true
  · simp only [h, if_true, getWorld_apply, pure_apply]
    exact h
  · simp only [h, if_false]
    cases construct w <;> rfl

theorem CasbinCalls_of_once (n : Nat) (w : World) (h : w.once = true) :
    CasbinCalls n w = List.replicate n (.ret w.syncedCachedEnforcer w) := by
  induction n with
  | zero => rfl
  | succ n ih =>
    simp only [CasbinCalls, Casbin_of_once w h, Outcome.world, ih, List.replicate_succ]

/-- C9: the enforcer is constructed exactly once. For every world and every
number of calls: (1) every call of `Casbin()` after the first returns the value
the package variable has after the first call and leaves the world, and so the
trace, as the first call left it: construction is not run again; (2) when the
first call returns, it returns that same value; (3) when `once` is not yet done
the first call enters the construction body exactly once, and when it is done
it does not enter it; (4) when the first call's construction fails by an
adapter error or a model error, the first call and, by (1), every later call
return nil. -/
theorem Casbin_constructed_once (w : World) :
    (∀ n, CasbinCalls (n + 1) w = Casbin w ::
      List.replicate n (.ret (Casbin w).world.syncedCachedEnforcer (Casbin w).world)) ∧
    (∀ v w1, Casbin w = .ret v w1 → v = w1.syncedCachedEnforcer) ∧
    (constructions (Casbin w).world.trace =
      constructions w.trace + if w.once then 0 else 1) ∧
    (w.once = false → w.syncedCachedEnforcer = none →
      failing w.faults ≠ none ∨ failing w.faults.tail ≠ none →
      ∃ w1, Casbin w = .ret none w1 ∧ w1.syncedCachedEnforcer = none ∧ w1.once = true) := by
  refine ⟨fun n => ?_, fun v w1 h => ?_, ?_, fun ho he hf => ?_⟩
  · simp only [CasbinCalls, CasbinCalls_of_once n _ (Casbin_once_world w)]
  · simp only [Casbin, bind_apply, onceDo_apply] at h
    by_cases ho : w.once = true
    · simp only [ho, if_true, getWorld_apply, pure_apply, Outcome.ret.injEq] at h
      rw [← h.2, ← h.1]
    · have hof : w.once = false := by simpa using ho
      simp only [hof, Bool.false_eq_true, if_false] at h
      cases hc : construct w with
      | ret u w2 =>
        simp only [hc, getWorld_apply, pure_apply, Outcome.ret.injEq] at h
        rw [← h.2, ← h.1]
      | panic w2 =>
        simp only [hc] at h
        exact Outcome.noConfusion h
  · by_cases ho : w.once = true
    · simp [Casbin_of_once w ho, Outcome.world, ho]
    · simp only [Casbin, bind_apply, onceDo_apply, ho, if_false, construct_apply]
      cases failing w.faults with
      | some m => simp [constructions, Outcome.world, getWorld_apply, pure_apply]
      | none =>
        cases failing w.faults.tail with
        | some m => simp [constructions, Outcome.world, getWorld_apply, pure_apply]
        | none =>
          cases failing w.faults.tail.tail with
          | some m => simp [constructions, Outcome.world]
          | none => simp [constructions, Outcome.world, getWorld_apply, pure_apply]
  · simp only [Casbin, bind_apply, onceDo_apply, ho, construct_apply]
    cases h1 : failing w.faults with
    | some m =>
      simp only [Bool.false_eq_true, if_false, getWorld_apply, pure_apply, he]
      exact ⟨_, rfl, rfl, rfl⟩
    | none =>
      cases h2 : failing w.faults.tail with
      | some m =>
        simp only [Bool.false_eq_true, if_false, getWorld_apply, pure_apply, he]
        exact ⟨_, rfl, rfl, rfl⟩
      | none =>
        rcases hf with hf | hf
        · exact absurd h1 hf
        · exact absurd h2 hf

/-! ## C10 -/

theorem keeps_rules_Casbin : Keeps World.rules Casbin := by
  unfold Casbin construct NewSyncedCachedEnforcer SetExpireTime LoadPolicy
  repeat (first
    | exact Keeps.pure _ | exact Keeps.panic | exact Keeps.getWorld
    | exact Keeps.modifyWorld (fun _ => rfl)
    | refine Keeps.onceDo ?_ (fun _ => rfl)
    | refine Keeps.bind ?_ (fun _ => ?_) | split
    | exact (fun _ => rfl))

theorem keeps_rules_LoadPolicy (e : Option Enforcer) : Keeps World.rules (LoadPolicy e) := by
  unfold LoadPolicy
  repeat (first
    | exact Keeps.pure _ | exact Keeps.panic | exact Keeps.getWorld
    | exact Keeps.modifyWorld (fun _ => rfl)
    | refine Keeps.bind ?_ (fun _ => ?_) | split
    | exact (fun _ => rfl))

theorem Updates_apply (oldPath oldMethod newPath newMethod : String) (w : World) :
    Updates oldPath oldMethod newPath newMethod w =
      match failing w.faults with
      | some msg => .ret (some (Error.db msg)) { w with
          trace := w.trace ++ [Call.ruleUpdates oldPath oldMethod newPath newMethod],
          faults := w.faults.tail }
      | none => .ret none { w with
          rules := w.rules.map (renameRule oldPath oldMethod newPath newMethod),
          trace := w.trace ++ [Call.ruleUpdates oldPath oldMethod newPath newMethod],
          faults := w.faults.tail } := by
  simp only [Updates, bind_apply, extCall_apply]
  cases failing w.faults <;> rfl

/-- A successful `UpdateCasbinApi` leaves the rule table rewritten by the
update statement, and the API table as it was. -/
theorem UpdateCasbinApi_rules (oldPath newPath oldMethod newMethod : String) (w w1 : World)
    (h : UpdateCasbinApi oldPath newPath oldMethod newMethod w = .ret none w1) :
    w1.rules = w.rules.map (renameRule oldPath oldMethod newPath newMethod) ∧
      w1.apis = w.apis := by
  have hk : Keeps World.rules (Casbin >>= fun e => LoadPolicy e >>= fun err =>
      if err ≠ none then (pure err : M (Option Error)) else pure none) :=
    Keeps.bind keeps_rules_Casbin (fun e => Keeps.bind (keeps_rules_LoadPolicy e) (fun err => by
      split <;> exact Keeps.pure _))
  have ha := keeps_apis_UpdateCasbinApi oldPath newPath oldMethod newMethod w
  rw [h] at ha
  refine ⟨?_, ha⟩
  simp only [UpdateCasbinApi, bind_apply, Updates_apply] at h
  cases hf : failing w.faults with
  | some msg =>
    simp only [hf, ne_eq, reduceCtorEq, not_false_eq_true, if_true, pure_apply,
      Outcome.ret.injEq, false_and] at h
  | none =>
    simp only [hf, ne_eq, not_true_eq_false, if_false] at h
    have := hk { w with
      rules := w.rules.map (renameRule oldPath oldMethod newPath newMethod),
      trace := w.trace ++ [Call.ruleUpdates oldPath oldMethod newPath newMethod],
      faults := w.faults.tail }
    simp only [ne_eq] at this
    rw [h] at this
    exact this

theorem finish_ok (api o : SysApi) (err : Option Error) (w w1 : World)
    (h : UpdateApi.finish api o err w = .ret none w1) :
    err = none ∧ w1.rules = w.rules.map (renameRule o.Path o.Method api.Path api.Method) := by
  unfold UpdateApi.finish at h
  by_cases he : err = none
  · subst he
    refine ⟨rfl, ?_⟩
    simp only [ne_eq, not_true_eq_false, if_false, bind_apply] at h
    cases hU : UpdateCasbinApi o.Path api.Path o.Method api.Method w with
    | panic wa =>
      rw [hU] at h
      exact Outcome.noConfusion h
    | ret e wa =>
      rw [hU] at h
      by_cases hee : e = none
      · subst hee
        simp only [not_true_eq_false, if_false, Save_apply] at h
        have hr := (UpdateCasbinApi_rules _ _ _ _ w wa hU).1
        cases hf : failing wa.faults with
        | some msg =>
          simp only [hf, Outcome.ret.injEq, reduceCtorEq, false_and] at h
        | none =>
          simp only [hf, Outcome.ret.injEq, true_and] at h
          rw [← h]
          exact hr
      · simp only [hee, not_false_eq_true, if_true, pure_apply, Outcome.ret.injEq] at h
        exact h.1.elim
  · simp only [ne_eq, he, not_false_eq_true, if_true, pure_apply, Outcome.ret.injEq] at h
    exact h.1.elim

theorem finish_failed (api o : SysApi) (err : Option Error) (w : World)
    (h : ∀ w1, UpdateApi.finish api o err w ≠ .ret none w1) :
    (UpdateApi.finish api o err w).world.apis = w.apis := by
  rcases finish_apis api o err w with h1 | ⟨he, -⟩
  · exact h1
  · subst he
    unfold UpdateApi.finish at h ⊢
    simp only [ne_eq, not_true_eq_false, if_false, bind_apply] at h ⊢
    have hk := keeps_apis_UpdateCasbinApi o.Path api.Path o.Method api.Method w
    cases hU : UpdateCasbinApi o.Path api.Path o.Method api.Method w with
    | panic wa =>
      rw [hU] at hk
      exact hk
    | ret e wa =>
      rw [hU] at hk h
      have hk1 : wa.apis = w.apis := hk
      by_cases hee : e = none
      · subst hee
        simp only [not_true_eq_false, if_false, Save_apply] at h ⊢
        cases hf : failing wa.faults with
        | some msg => exact hk1
        | none =>
          simp only [hf] at h
          exact absurd rfl (h _)
      · simp only [hee, not_false_eq_true, if_true]
        exact hk1

/-- The two ways `UpdateApi` can go: it returns an error after lookups only, or
it runs lines 159-169 with the looked-up record, in a world whose tables are
still those it started with. -/
theorem UpdateApi_cases (api : SysApi) (w : World) :
    (∃ e w1, UpdateApi api w = .ret (some e) w1 ∧ w1.apis = w.apis ∧ w1.rules = w.rules) ∨
    (∃ o err w1, w1.apis = w.apis ∧ w1.rules = w.rules ∧
      (err = none → o ∈ w.apis ∧ o.ID = api.ID) ∧
      UpdateApi api w = UpdateApi.finish api o err w1) := by
  simp only [UpdateApi, bind_apply]
  obtain ⟨⟨o, err⟩, w1, hF, h1, hr1, hfound, -⟩ :=
    First_spec (Call.apiFirstById api.ID) (fun x => x.ID = api.ID) w
  have hfound2 : err = none → o ∈ w.apis ∧ o.ID = api.ID := fun h => by
    have := hfound h
    exact ⟨this.1, by simpa using this.2⟩
  rw [hF]
  simp only []
  split
  · simp only [bind_apply]
    obtain ⟨⟨d, derr⟩, w2, hD, h2, hr2, -, -⟩ :=
      First_spec (Call.apiFirstByPair api.Path api.Method)
        (fun x => x.Path = api.Path ∧ x.Method = api.Method) w1
    rw [hD]
    cases derr with
    | some e =>
      simp only []
      split
      · exact Or.inl ⟨e, w2, rfl, h2.trans h1, hr2.trans hr1⟩
      · exact Or.inr ⟨o, err, w2, h2.trans h1, hr2.trans hr1, hfound2, rfl⟩
    | none =>
      simp only []
      split
      · exact Or.inl ⟨_, w2, rfl, h2.trans h1, hr2.trans hr1⟩
      · exact Or.inr ⟨o, err, w2, h2.trans h1, hr2.trans hr1, hfound2, rfl⟩
  · exact Or.inr ⟨o, err, w1, h1, hr1, hfound2, rfl⟩

theorem renameRule_spec (oldPath oldMethod newPath newMethod : String) (r : CasbinRule) :
    (r.V1 = oldPath ∧ r.V2 = oldMethod →
      renameRule oldPath oldMethod newPath newMethod r =
        ⟨r.Ptype, r.V0, newPath, newMethod, r.V3, r.V4, r.V5⟩) ∧
    (¬ (r.V1 = oldPath ∧ r.V2 = oldMethod) →
      renameRule oldPath oldMethod newPath newMethod r = r) := by
  unfold renameRule
  constructor
  · intro h; rw [if_pos h]
  · intro h; rw [if_neg h]

/-- C10: policy rows follow an API rename and nothing else changes.
(1) After a successful `UpdateCasbinApi` the rule table is the old one with the
update applied row by row: a row with v1 = oldPath and v2 = oldMethod gets
v1 = newPath and v2 = newMethod and keeps its ptype, v0 and v3..v5; every
other row is unchanged; the number of rows is the same; the API table is
untouched. (2) After a successful `UpdateApi` the rule table is rewritten in
that way from the stored pair of the record with the key of `api` to the pair
of `api`. (3) When `UpdateCasbinApi` returns an error inside `UpdateApi`
(lines 159-169), that error is returned and the API record is not saved; more
generally every run of `UpdateApi` that does not return nil leaves the API
table unchanged. -/
theorem policy_rows_follow_rename (w : World) :
    (∀ oldPath newPath oldMethod newMethod w1,
      UpdateCasbinApi oldPath newPath oldMethod newMethod w = .ret none w1 →
        w1.rules = w.rules.map (renameRule oldPath oldMethod newPath newMethod) ∧
        (∀ r, (r.V1 = oldPath ∧ r.V2 = oldMethod →
            renameRule oldPath oldMethod newPath newMethod r =
              ⟨r.Ptype, r.V0, newPath, newMethod, r.V3, r.V4, r.V5⟩) ∧
          (¬ (r.V1 = oldPath ∧ r.V2 = oldMethod) →
            renameRule oldPath oldMethod newPath newMethod r = r)) ∧
        w1.rules.length = w.rules.length ∧ w1.apis = w.apis) ∧
    (∀ api w1, UpdateApi api w = .ret none w1 →
      ∃ o ∈ w.apis, o.ID = api.ID ∧
        w1.rules = w.rules.map (renameRule o.Path o.Method api.Path api.Method)) ∧
    (∀ api o e w1, UpdateCasbinApi o.Path api.Path o.Method api.Method w = .ret (some e) w1 →
      UpdateApi.finish api o none w = .ret (some e) w1 ∧ w1.apis = w.apis) ∧
    (∀ api, (∀ w1, UpdateApi api w ≠ .ret none w1) → (UpdateApi api w).world.apis = w.apis) := by
  refine ⟨fun oldPath newPath oldMethod newMethod w1 h => ?_, fun api w1 h => ?_,
    fun api o e w1 h => ?_, fun api h => ?_⟩
  · have hr := UpdateCasbinApi_rules _ _ _ _ w w1 h
    exact ⟨hr.1, renameRule_spec _ _ _ _, by rw [hr.1, List.length_map], hr.2⟩
  · rcases UpdateApi_cases api w with ⟨e, w2, he, -, -⟩ | ⟨o, err, w2, -, hr, hfound, hfin⟩
    · rw [he] at h
      simp only [Outcome.ret.injEq, reduceCtorEq, false_and] at h
    · rw [hfin] at h
      obtain ⟨herr, hrules⟩ := finish_ok api o err w2 w1 h
      exact ⟨o, (hfound herr).1, (hfound herr).2, by rw [hrules, hr]⟩
  · have hk := keeps_apis_UpdateCasbinApi o.Path api.Path o.Method api.Method w
    rw [h] at hk
    refine ⟨?_, hk⟩
    simp only [UpdateApi.finish, ne_eq, not_true_eq_false, if_false, bind_apply, h,
      reduceCtorEq, not_false_eq_true, if_true, pure_apply]
  · rcases UpdateApi_cases api w with ⟨e, w2, he, ha, -⟩ | ⟨o, err, w2, ha, -, -, hfin⟩
    · rw [he]
      exact ha
    · rw [hfin] at h ⊢
      rw [finish_failed api o err w2 h]
      exact ha

/-! ## C5 and C6 -/

theorem failing_nil : failing [] = none := rfl

theorem toDigitsCore_ne_nil (b fuel n : Nat) (ds : List Char) (h : ds ≠ []) :
    Nat.toDigitsCore b fuel n ds ≠ [] := by
  induction fuel generalizing n ds with
  | zero => simpa [Nat.toDigitsCore] using h
  | succ f ih =>
    simp only [Nat.toDigitsCore]
    split
    · simp
    · exact ih _ _ (by simp)

theorem Nat_repr_ne_empty (n : Nat) : Nat.repr n ≠ "" := by
  intro h
  have h1 : (Nat.toDigits 10 n) = [] := by
    have := congrArg String.data h
    simpa [Nat.repr, List.asString] using this
  simp only [Nat.toDigits, Nat.toDigitsCore] at h1
  split at h1
  · simp at h1
  · exact toDigitsCore_ne_nil _ _ _ _ (by simp) h1

/-- The subject string built by `UpdateCasbin` is never empty. -/
theorem Itoa_ne_empty (i : Int) : Itoa i ≠ "" := by
  cases i with
  | ofNat m => exact Nat_repr_ne_empty m
  | negSucc m =>
    intro h
    have := congrArg String.length h
    simp [Itoa, toString, String.length_append] at this
    exact absurd this.1 (by decide)

theorem dedupLoop_shape (a : String) (l : List CasbinInfo) (seen : List String)
    (acc : List (List String)) (hacc : ∀ r ∈ acc, ∃ p m, r = [a, p, m]) :
    ∀ r ∈ dedupLoop a l seen acc, ∃ p m, r = [a, p, m] := by
  induction l generalizing seen acc with
  | nil => exact hacc
  | cons v rest ih =>
    simp only [dedupLoop]
    split
    · exact ih seen acc hacc
    · refine ih _ _ (fun r hr => ?_)
      rcases List.mem_append.mp hr with h | h
      · exact hacc r h
      · exact ⟨v.Path, v.Method, List.mem_singleton.mp h⟩

theorem dedupRules_shape (A : Nat) (l : List CasbinInfo) :
    ∀ r ∈ dedupRules A l, ∃ p m, r = [Itoa (intOfUint A), p, m] :=
  dedupLoop_shape _ l [] [] (fun _ h => absurd h (List.not_mem_nil _))

theorem matchesFilter_rule (a p m : String) : matchesFilter [a, p, m] 0 [a] = true := by
  simp [matchesFilter]

theorem matchesFilter_row (a p m : String) :
    matchesFilter (policyRow [a, p, m]).fields 0 [a] = true := by
  simp [matchesFilter, policyRow, CasbinRule.fields]

theorem clearedPolicy_append (A : Nat) (l : List CasbinInfo) (pol : List (List String)) :
    clearedPolicy (Itoa (intOfUint A)) (pol ++ dedupRules A l) =
      clearedPolicy (Itoa (intOfUint A)) pol := by
  unfold clearedPolicy
  rw [List.filter_append, List.append_right_eq_self, List.filter_eq_nil_iff]
  intro r hr
  obtain ⟨p, m, rfl⟩ := dedupRules_shape A l r hr
  simp [matchesFilter_rule]

theorem clearedRows_append (A : Nat) (l : List CasbinInfo) (rows : List CasbinRule) :
    clearedRows (Itoa (intOfUint A)) (rows ++ (dedupRules A l).map policyRow) =
      clearedRows (Itoa (intOfUint A)) rows := by
  unfold clearedRows
  rw [List.filter_append, List.append_right_eq_self, List.filter_eq_nil_iff]
  intro r hr
  obtain ⟨r0, hr0, rfl⟩ := List.mem_map.mp hr
  obtain ⟨p, m, rfl⟩ := dedupRules_shape A l r0 hr0
  have h1 := matchesFilter_row (Itoa (intOfUint A)) p m
  have h2 : (policyRow [Itoa (intOfUint A), p, m]).Ptype = "p" := rfl
  simp [h1, h2]

theorem clearedPolicy_idem (a : String) (pol : List (List String)) :
    clearedPolicy a (clearedPolicy a pol) = clearedPolicy a pol := by
  simp [clearedPolicy, List.filter_filter]

theorem clearedRows_idem (a : String) (rows : List CasbinRule) :
    clearedRows a (clearedRows a rows) = clearedRows a rows := by
  simp [clearedRows, List.filter_filter]

theorem dedupRules_not_cached (A : Nat) (l : List CasbinInfo) (pol : List (List String)) :
    (dedupRules A l).any (fun r => decide (r ∈ clearedPolicy (Itoa (intOfUint A)) pol)) =
      false := by
  rw [List.any_eq_false]
  intro r hr
  obtain ⟨p, m, rfl⟩ := dedupRules_shape A l r hr
  simp [clearedPolicy, matchesFilter_rule]

/-- Closed form of `UpdateCasbin` once the enforcer is constructed, in a run
without injected failures. -/
theorem UpdateCasbin_ready (A : Nat) (l : List CasbinInfo) (w : World) (e : Enforcer)
    (hf : w.faults = []) (ho : w.once = true) (he : w.syncedCachedEnforcer = some e) :
    UpdateCasbin A l w =
      .ret (if dedupRules A l = [] then some (Error.new "存在相同api,添加失败,请联系管理员") else none)
        ⟨w.apis, clearedRows (Itoa (intOfUint A)) w.rules ++ (dedupRules A l).map policyRow,
          true,
          some ⟨clearedPolicy (Itoa (intOfUint A)) e.policy ++ dedupRules A l, e.expireTime⟩,
          [],
          w.trace ++ [Call.clearCasbin 0 [Itoa (intOfUint A)]] ++
            [Call.removeFilteredPolicy 0 [Itoa (intOfUint A)]] ++
            [Call.addPolicies (dedupRules A l)]⟩ := by
  have hnc := dedupRules_not_cached A l e.policy
  unfold dedupRules clearedPolicy at hnc
  simp only [UpdateCasbin, ClearCasbin, bind_apply, logCall_apply, Casbin_of_once, ho,
    he, RemoveFilteredPolicy, nextFault_apply, hf,
    failing_nil, List.tail_nil, getWorld_apply, modifyWorld_apply, pure_apply,
    List.cons_ne_nil, if_false, reduceCtorEq, Option.map_some', AddPolicies, hnc,
    Bool.false_eq_true]
  by_cases hem : dedupLoop (Itoa (intOfUint A)) l [] [] = []
  · simp [hem, dedupRules, pure_apply, clearedRows, clearedPolicy]
  · simp [hem, dedupRules, pure_apply, clearedRows, clearedPolicy, bind_apply, nextFault_apply,
      failing_nil, modifyWorld_apply]

theorem Casbin_fresh (w : World) (ho : w.once = false) (hf : w.faults = []) :
    Casbin w = .ret (some ⟨loadRules w.rules, 60 * 60⟩)
      ⟨w.apis, w.rules, true, some ⟨loadRules w.rules, 60 * 60⟩, [],
        w.trace ++ [Call.newAdapterByDB] ++ [Call.newModelFromString] ++
          [Call.newSyncedCachedEnforcer] ++ [Call.setExpireTime (60 * 60)] ++
          [Call.loadPolicy]⟩ := by
  simp only [Casbin, bind_apply, onceDo_apply, ho, Bool.false_eq_true, if_false,
    construct_apply, hf, failing_nil, List.tail_nil, getWorld_apply, pure_apply]

/-- Closed form of `UpdateCasbin` when the enforcer is still to be constructed,
in a run without injected failures. -/
theorem UpdateCasbin_fresh (A : Nat) (l : List CasbinInfo) (w : World)
    (hf : w.faults = []) (ho : w.once = false) :
    UpdateCasbin A l w =
      .ret (if dedupRules A l = [] then some (Error.new "存在相同api,添加失败,请联系管理员") else none)
        ⟨w.apis, clearedRows (Itoa (intOfUint A)) w.rules ++ (dedupRules A l).map policyRow,
          true,
          some ⟨clearedPolicy (Itoa (intOfUint A)) (loadRules w.rules) ++ dedupRules A l,
            60 * 60⟩,
          [],
          w.trace ++ [Call.clearCasbin 0 [Itoa (intOfUint A)]] ++
            [Call.newAdapterByDB] ++ [Call.newModelFromString] ++
            [Call.newSyncedCachedEnforcer] ++ [Call.setExpireTime (60 * 60)] ++
            [Call.loadPolicy] ++
            [Call.removeFilteredPolicy 0 [Itoa (intOfUint A)]] ++
            [Call.addPolicies (dedupRules A l)]⟩ := by
  have hnc := dedupRules_not_cached A l (loadRules w.rules)
  unfold dedupRules clearedPolicy at hnc
  simp only [UpdateCasbin, ClearCasbin, bind_apply, logCall_apply, Casbin_fresh, Casbin_of_once,
    ho, RemoveFilteredPolicy, nextFault_apply, hf,
    failing_nil, List.tail_nil, getWorld_apply, modifyWorld_apply, pure_apply,
    List.cons_ne_nil, if_false, reduceCtorEq, Option.map_some', AddPolicies, hnc,
    Bool.false_eq_true]
  by_cases hem : dedupLoop (Itoa (intOfUint A)) l [] [] = []
  · simp [hem, dedupRules, pure_apply, clearedRows, clearedPolicy]
  · simp [hem, dedupRules, pure_apply, clearedRows, clearedPolicy, bind_apply, nextFault_apply,
      failing_nil, modifyWorld_apply]

theorem UpdateCasbin_nil (A : Nat) (l : List CasbinInfo) (w : World)
    (ho : w.once = true) (he : w.syncedCachedEnforcer = none) :
    UpdateCasbin A l w =
      .panic { w with trace := w.trace ++ [Call.clearCasbin 0 [Itoa (intOfUint A)]] } := by
  simp only [UpdateCasbin, ClearCasbin, bind_apply, logCall_apply, Casbin_of_once, ho, he,
    RemoveFilteredPolicy, panic_apply]

theorem UpdateCasbin_again (A : Nat) (l : List CasbinInfo) (apis : List SysApi)
    (R : List CasbinRule) (P : List (List String)) (x : Nat) (tr : List Call) :
    sameStore
      (UpdateCasbin A l
        ⟨apis, clearedRows (Itoa (intOfUint A)) R ++ (dedupRules A l).map policyRow, true,
          some ⟨clearedPolicy (Itoa (intOfUint A)) P ++ dedupRules A l, x⟩, [], tr⟩).world
      ⟨apis, clearedRows (Itoa (intOfUint A)) R ++ (dedupRules A l).map policyRow, true,
        some ⟨clearedPolicy (Itoa (intOfUint A)) P ++ dedupRules A l, x⟩, [], tr⟩ ∧
    (UpdateCasbin A l
        ⟨apis, clearedRows (Itoa (intOfUint A)) R ++ (dedupRules A l).map policyRow, true,
          some ⟨clearedPolicy (Itoa (intOfUint A)) P ++ dedupRules A l, x⟩, [], tr⟩).returned =
      some (if dedupRules A l = [] then some (Error.new "存在相同api,添加失败,请联系管理员")
        else none) := by
  rw [UpdateCasbin_ready A l _ _ rfl rfl rfl]
  simp only [Outcome.world, Outcome.returned, sameStore, clearedRows_append, clearedRows_idem,
    clearedPolicy_append, clearedPolicy_idem, and_self]

theorem clearedRows_eq (a : String) (ha : a ≠ "") (rows : List CasbinRule) :
    clearedRows a rows = rows.filter (fun r => ¬ (r.Ptype = "p" ∧ r.V0 = a)) := by
  unfold clearedRows
  congr 1
  funext r
  simp [matchesFilter, CasbinRule.fields, ha]

theorem subject_rows (A : Nat) (l : List CasbinInfo) (rows : List CasbinRule) :
    (clearedRows (Itoa (intOfUint A)) rows ++ (dedupRules A l).map policyRow).filter
        (fun r => r.Ptype = "p" ∧ r.V0 = Itoa (intOfUint A)) = (dedupRules A l).map policyRow ∧
    (clearedRows (Itoa (intOfUint A)) rows ++ (dedupRules A l).map policyRow).filter
        (fun r => ¬ (r.Ptype = "p" ∧ r.V0 = Itoa (intOfUint A))) =
      rows.filter (fun r => ¬ (r.Ptype = "p" ∧ r.V0 = Itoa (intOfUint A))) := by
  have hnew : ∀ r ∈ (dedupRules A l).map policyRow,
      r.Ptype = "p" ∧ r.V0 = Itoa (intOfUint A) := by
    intro r hr
    obtain ⟨r0, hr0, rfl⟩ := List.mem_map.mp hr
    obtain ⟨p, m, rfl⟩ := dedupRules_shape A l r0 hr0
    exact ⟨rfl, rfl⟩
  rw [clearedRows_eq _ (Itoa_ne_empty _)]
  constructor
  · rw [List.filter_append, List.filter_filter]
    have h1 : List.filter (fun r => (decide (r.Ptype = "p" ∧ r.V0 = Itoa (intOfUint A)) &&
        decide ¬ (r.Ptype = "p" ∧ r.V0 = Itoa (intOfUint A)))) rows = [] := by
      rw [List.filter_eq_nil_iff]
      intro r _
      simp
    have h2 : List.filter (fun r => decide (r.Ptype = "p" ∧ r.V0 = Itoa (intOfUint A)))
        ((dedupRules A l).map policyRow) = (dedupRules A l).map policyRow := by
      rw [List.filter_eq_self]
      intro r hr
      simpa using hnew r hr
    rw [h1, h2, List.nil_append]
  · rw [List.filter_append, List.filter_filter]
    have h2 : List.filter (fun r => decide ¬ (r.Ptype = "p" ∧ r.V0 = Itoa (intOfUint A)))
        ((dedupRules A l).map policyRow) = [] := by
      rw [List.filter_eq_nil_iff]
      intro r hr
      simpa using hnew r hr
    rw [h2, List.append_nil]
    congr 1
    funext r
    simp

theorem Itoa_of_small (A : Nat) (h : A < 2 ^ 63) : Itoa (intOfUint A) = toString A := by
  have h1 : A % 2 ^ 64 = A := Nat.mod_eq_of_lt (by omega)
  simp only [intOfUint, h1, h, if_true]
  rfl

/-- Where no two different (Path, Method) pairs of the input share a key, the
loop of `UpdateCasbin` is the deduplication by (Path, Method). -/
theorem dedupLoop_eq_dedupByPair (a : String) (l : List CasbinInfo)
    (seenP : List (String × String)) (acc : List (List String))
    (hinj : ∀ u ∈ seenP ++ l.map (fun v => (v.Path, v.Method)),
      ∀ v ∈ seenP ++ l.map (fun v => (v.Path, v.Method)),
        a ++ u.1 ++ u.2 = a ++ v.1 ++ v.2 → u = v) :
    dedupLoop a l (seenP.map (fun u => a ++ u.1 ++ u.2)) acc =
      acc ++ dedupByPair a l seenP := by
  induction l generalizing seenP acc with
  | nil => simp [dedupLoop, dedupByPair]
  | cons v rest ih =>
    have hv : (v.Path, v.Method) ∈ seenP ++ (v :: rest).map (fun v => (v.Path, v.Method)) := by
      simp
    have hiff : a ++ v.Path ++ v.Method ∈ seenP.map (fun u => a ++ u.1 ++ u.2) ↔
        (v.Path, v.Method) ∈ seenP := by
      constructor
      · intro h
        obtain ⟨u, hu, hk⟩ := List.mem_map.mp h
        have := hinj u (List.mem_append_left _ hu) _ hv hk
        rw [← this]
        exact hu
      · intro h
        exact List.mem_map.mpr ⟨_, h, rfl⟩
    simp only [dedupLoop, dedupByPair]
    by_cases hs : (v.Path, v.Method) ∈ seenP
    · rw [if_pos (hiff.mpr hs), if_pos hs]
      refine ih seenP acc (fun u hu w hw => hinj u ?_ w ?_)
      · rcases List.mem_append.mp hu with h | h
        · exact List.mem_append_left _ h
        · exact List.mem_append_right _ (List.mem_cons_of_mem _ h)
      · rcases List.mem_append.mp hw with h | h
        · exact List.mem_append_left _ h
        · exact List.mem_append_right _ (List.mem_cons_of_mem _ h)
    · rw [if_neg (fun h => hs (hiff.mp h)), if_neg hs]
      have := ih ((v.Path, v.Method) :: seenP) (acc ++ [[a, v.Path, v.Method]])
        (fun u hu w hw => hinj u (by
          simp only [List.cons_append, List.mem_cons, List.mem_append, List.map_cons] at hu ⊢
          tauto) w (by
          simp only [List.cons_append, List.mem_cons, List.mem_append, List.map_cons] at hw ⊢
          tauto))
      simp only [List.map_cons] at this
      rw [this]
      simp

theorem append_cancel_subject {a x y : String} (h : a ++ x = a ++ y) : x = y := by
  have h1 := congrArg String.data h
  simp only [String.data_append] at h1
  exact String.ext (List.append_cancel_left h1)

theorem dedupRules_eq_dedupByPair (A : Nat) (l : List CasbinInfo) (h : KeysDistinct l) :
    dedupRules A l = dedupByPair (Itoa (intOfUint A)) l [] := by
  have := dedupLoop_eq_dedupByPair (Itoa (intOfUint A)) l [] [] (by
    intro u hu v hv hk
    simp only [List.nil_append, List.mem_map] at hu hv
    obtain ⟨u0, hu0, rfl⟩ := hu
    obtain ⟨v0, hv0, rfl⟩ := hv
    simp only [String.append_assoc] at hk
    have := h u0 hu0 v0 hv0 (append_cancel_subject hk)
    simp [this.1, this.2])
  simpa [dedupRules] using this

theorem dedupLoop_sublist (a : String) (l : List CasbinInfo) (seen : List String)
    (seenP : List (String × String)) (acc : List (List String))
    (hinv : ∀ u ∈ seenP, a ++ u.1 ++ u.2 ∈ seen) :
    ∃ kept, dedupLoop a l seen acc = acc ++ kept ∧ kept.Sublist (dedupByPair a l seenP) := by
  induction l generalizing seen seenP acc with
  | nil => exact ⟨[], by simp [dedupLoop], List.Sublist.refl _⟩
  | cons v rest ih =>
    simp only [dedupLoop, dedupByPair]
    by_cases hk : a ++ v.Path ++ v.Method ∈ seen
    · rw [if_pos hk]
      by_cases hs : (v.Path, v.Method) ∈ seenP
      · rw [if_pos hs]
        exact ih seen seenP acc hinv
      · rw [if_neg hs]
        obtain ⟨kept, h1, h2⟩ := ih seen ((v.Path, v.Method) :: seenP) acc (by
          intro u hu
          rcases List.mem_cons.mp hu with rfl | h
          · exact hk
          · exact hinv u h)
        exact ⟨kept, h1, h2.cons _⟩
    · rw [if_neg hk]
      have hs : (v.Path, v.Method) ∉ seenP := fun h => hk (hinv _ h)
      rw [if_neg hs]
      obtain ⟨kept, h1, h2⟩ := ih ((a ++ v.Path ++ v.Method) :: seen)
        ((v.Path, v.Method) :: seenP) (acc ++ [[a, v.Path, v.Method]]) (by
          intro u hu
          rcases List.mem_cons.mp hu with rfl | h
          · exact List.mem_cons_self _ _
          · exact List.mem_cons_of_mem _ (hinv u h))
      exact ⟨[a, v.Path, v.Method] :: kept, by simp [h1], h2.cons₂ _⟩

theorem dedupRules_sublist (A : Nat) (l : List CasbinInfo) :
    (dedupRules A l).Sublist (dedupByPair (Itoa (intOfUint A)) l []) := by
  obtain ⟨kept, h1, h2⟩ := dedupLoop_sublist (Itoa (intOfUint A)) l [] [] []
    (fun _ h => absurd h (List.not_mem_nil _))
  have h3 : dedupRules A l = kept := by simpa [dedupRules] using h1
  rw [h3]
  exact h2

theorem digitChar_ne_minus : ∀ k, k < 10 → Nat.digitChar k ≠ '-' := by
  decide

theorem toDigitsCore_no_minus (fuel n : Nat) (ds : List Char) (h : ∀ c ∈ ds, c ≠ '-') :
    ∀ c ∈ Nat.toDigitsCore 10 fuel n ds, c ≠ '-' := by
  induction fuel generalizing n ds with
  | zero => simpa [Nat.toDigitsCore] using h
  | succ f ih =>
    have hd : ∀ c ∈ Nat.digitChar (n % 10) :: ds, c ≠ '-' := by
      intro c hc
      rcases List.mem_cons.mp hc with rfl | h1
      · exact digitChar_ne_minus _ (Nat.mod_lt _ (by decide))
      · exact h c h1
    simp only [Nat.toDigitsCore]
    split
    · exact hd
    · exact ih _ _ hd

theorem repr_no_minus (n : Nat) : '-' ∉ (Nat.repr n).data := by
  intro h
  have := toDigitsCore_no_minus (n + 1) n [] (fun _ hc => absurd hc (List.not_mem_nil _))
  exact this '-' (by simpa [Nat.repr, Nat.toDigits, List.asString] using h) rfl

theorem Itoa_eq_decimal_iff (A : Nat) (hA : A < 2 ^ 64) :
    Itoa (intOfUint A) = toString A ↔ A < 2 ^ 63 := by
  constructor
  · intro h
    by_contra hge
    have h1 : A % 2 ^ 64 = A := Nat.mod_eq_of_lt hA
    simp only [intOfUint, h1, hge, if_false] at h
    obtain ⟨m, hm⟩ : ∃ m, ((A : Nat) : Int) - 2 ^ 64 = Int.negSucc m :=
      Int.eq_negSucc_of_lt_zero (by omega)
    rw [hm] at h
    have h2 : Itoa (Int.negSucc m) = "-" ++ Nat.repr (m + 1) := rfl
    rw [h2] at h
    have h3 : (toString A : String) = Nat.repr A := rfl
    rw [h3] at h
    have h4 := congrArg String.data h
    simp only [String.data_append] at h4
    exact repr_no_minus A (by rw [← h4]; simp [String.data])
  · exact Itoa_of_small A

/-- C5, as amended: in a run without injected failures, for every policy
store, every AuthorityID and every list casbinInfos, (1) calling `UpdateCasbin`
again right after a first call ends in the same store (API table, rule table,
`once`, cached copy) and gives the same result as the first call; (2) after a
successful call the `p` rows whose subject v0 is `strconv.Itoa(int(AuthorityID))`
are the rows of triples `[subject, Path, Method]` of casbinInfos, a sub-list of
the triples left when every later occurrence of an already seen (Path, Method)
pair is removed, and are exactly those triples when no two different pairs of
casbinInfos have the same concatenation Path + Method; all other rows are
unchanged; (3) for a 64-bit AuthorityID that subject is the decimal string of
AuthorityID exactly when AuthorityID < 2^63. -/
theorem UpdateCasbin_idempotent (w : World) (A : Nat) (l : List CasbinInfo)
    (hf : w.faults = []) :
    (sameStore (UpdateCasbin A l (UpdateCasbin A l w).world).world (UpdateCasbin A l w).world ∧
      (UpdateCasbin A l (UpdateCasbin A l w).world).returned = (UpdateCasbin A l w).returned) ∧
    (∀ w1, UpdateCasbin A l w = .ret none w1 →
      (∃ kept : List (List String), kept.Sublist (dedupByPair (Itoa (intOfUint A)) l []) ∧
        w1.rules.filter (fun r => r.Ptype = "p" ∧ r.V0 = Itoa (intOfUint A)) =
          kept.map policyRow) ∧
      (KeysDistinct l →
        w1.rules.filter (fun r => r.Ptype = "p" ∧ r.V0 = Itoa (intOfUint A)) =
          (dedupByPair (Itoa (intOfUint A)) l []).map policyRow) ∧
      w1.rules.filter (fun r => ¬ (r.Ptype = "p" ∧ r.V0 = Itoa (intOfUint A))) =
        w.rules.filter (fun r => ¬ (r.Ptype = "p" ∧ r.V0 = Itoa (intOfUint A)))) ∧
    (A < 2 ^ 64 → (Itoa (intOfUint A) = toString A ↔ A < 2 ^ 63)) := by
  refine ⟨?_, fun w1 h => ?_, Itoa_eq_decimal_iff A⟩
  · by_cases ho : w.once = true
    · cases he : w.syncedCachedEnforcer with
      | none =>
        rw [UpdateCasbin_nil A l w ho he]
        simp only [Outcome.world]
        rw [UpdateCasbin_nil A l
          { w with trace := w.trace ++ [Call.clearCasbin 0 [Itoa (intOfUint A)]] } ho he]
        exact ⟨⟨rfl, rfl, rfl, rfl⟩, rfl⟩
      | some e =>
        rw [UpdateCasbin_ready A l w e hf ho he]
        exact UpdateCasbin_again A l _ _ _ _ _
    · have hof : w.once = false := by simpa using ho
      rw [UpdateCasbin_fresh A l w hf hof]
      exact UpdateCasbin_again A l _ _ _ _ _
  · have hw1 : w1.rules =
        clearedRows (Itoa (intOfUint A)) w.rules ++ (dedupRules A l).map policyRow := by
      by_cases ho : w.once = true
      · cases he : w.syncedCachedEnforcer with
        | none =>
          rw [UpdateCasbin_nil A l w ho he] at h
          exact Outcome.noConfusion h
        | some e =>
          rw [UpdateCasbin_ready A l w e hf ho he] at h
          simp only [Outcome.ret.injEq] at h
          rw [← h.2]
      · have hof : w.once = false := by simpa using ho
        rw [UpdateCasbin_fresh A l w hf hof] at h
        simp only [Outcome.ret.injEq] at h
        rw [← h.2]
    rw [hw1]
    refine ⟨⟨dedupRules A l, dedupRules_sublist A l, (subject_rows A l w.rules).1⟩,
      fun hd => ?_, (subject_rows A l w.rules).2⟩
    rw [(subject_rows A l w.rules).1, dedupRules_eq_dedupByPair A l hd]

/-- C5, counterexample. (1) For AuthorityID = 2^64 - 1, whose decimal string is
"18446744073709551615", a successful `UpdateCasbin` writes its rules under the
subject "-1"; the rules whose subject is the decimal string of AuthorityID are
still the old ones, not the new ones. (2) For AuthorityID = 1 and the entries
(/a, bc), (/ab, c) a successful call leaves one rule under subject "1", where
the entries deduplicated by (Path, Method) are two. -/
theorem UpdateCasbin_subject_wraps :
    (toString (18446744073709551615 : Nat) = "18446744073709551615" ∧
      (UpdateCasbin 18446744073709551615 [⟨"/a", "GET"⟩] bigRoleWorld).returned = some none ∧
      (UpdateCasbin 18446744073709551615 [⟨"/a", "GET"⟩] bigRoleWorld).world.rules =
        [⟨"p", "18446744073709551615", "/x", "GET", "", "", ""⟩,
          ⟨"p", "-1", "/a", "GET", "", "", ""⟩]) ∧
    ((UpdateCasbin 1 [⟨"/a", "bc"⟩, ⟨"/ab", "c"⟩] emptyReadyWorld).returned = some none ∧
      (UpdateCasbin 1 [⟨"/a", "bc"⟩, ⟨"/ab", "c"⟩] emptyReadyWorld).world.rules =
        [⟨"p", "1", "/a", "bc", "", "", ""⟩] ∧
      dedupByPair "1" [⟨"/a", "bc"⟩, ⟨"/ab", "c"⟩] [] =
        [["1", "/a", "bc"], ["1", "/ab", "c"]]) := by
  decide

/-- C6, the failing input: the paths and methods (/a, bc) and (/ab, c) are
different pairs with the same key "1/abc"; the list handed to `AddPolicies`
holds the first only, while deduplication by (Path, Method) keeps both. -/
theorem UpdateCasbin_dedup_key_collision :
    dedupRules 1 [⟨"/a", "bc"⟩, ⟨"/ab", "c"⟩] = [["1", "/a", "bc"]] ∧
    dedupByPair "1" [⟨"/a", "bc"⟩, ⟨"/ab", "c"⟩] [] = [["1", "/a", "bc"], ["1", "/ab", "c"]] ∧
    (UpdateCasbin 1 [⟨"/a", "bc"⟩, ⟨"/ab", "c"⟩] emptyReadyWorld).world.trace =
      [Call.clearCasbin 0 ["1"], Call.removeFilteredPolicy 0 ["1"],
        Call.addPolicies [["1", "/a", "bc"]]] := by
  decide

/-! ## Witnesses -/

/-- Witness of C4: an injection attempt in the order string is refused and no
paginated query is issued. -/
theorem GetAPIInfoList_order_allow_list_witness :
    failing quietWorld.faults = none ∧
    ∃ w1, GetAPIInfoList sampleEngine ⟨0, "/a", "", "", ""⟩ ⟨1, 10⟩ "id; drop table" false
          quietWorld =
          .ret ([], sampleEngine.count quietWorld.apis (whereConds ⟨0, "/a", "", "", ""⟩),
            some (Error.new ("非法的排序字段: " ++ "id; drop table"))) w1 ∧
        w1.trace = quietWorld.trace ++ [Call.apiCount (whereConds ⟨0, "/a", "", "", ""⟩)] ∧
        findCalls w1.trace = findCalls quietWorld.trace :=
  ⟨rfl, (GetAPIInfoList_order_allow_list sampleEngine quietWorld ⟨0, "/a", "", "", ""⟩ ⟨1, 10⟩
    "id; drop table" false rfl).1 (by decide) (by decide)⟩

/-- Witness of C5: replacing the rules of role 7 twice; the repeated entry
(/a, GET) is written once. -/
theorem UpdateCasbin_idempotent_witness :
    quietWorld.faults = [] ∧
    KeysDistinct [⟨"/a", "GET"⟩, ⟨"/c", "PUT"⟩, ⟨"/a", "GET"⟩] ∧
    UpdateCasbin 7 [⟨"/a", "GET"⟩, ⟨"/c", "PUT"⟩, ⟨"/a", "GET"⟩] quietWorld =
      .ret none (UpdateCasbin 7 [⟨"/a", "GET"⟩, ⟨"/c", "PUT"⟩, ⟨"/a", "GET"⟩] quietWorld).world ∧
    (sameStore
      (UpdateCasbin 7 [⟨"/a", "GET"⟩, ⟨"/c", "PUT"⟩, ⟨"/a", "GET"⟩]
        (UpdateCasbin 7 [⟨"/a", "GET"⟩, ⟨"/c", "PUT"⟩, ⟨"/a", "GET"⟩] quietWorld).world).world
      (UpdateCasbin 7 [⟨"/a", "GET"⟩, ⟨"/c", "PUT"⟩, ⟨"/a", "GET"⟩] quietWorld).world ∧
    (UpdateCasbin 7 [⟨"/a", "GET"⟩, ⟨"/c", "PUT"⟩, ⟨"/a", "GET"⟩]
        (UpdateCasbin 7 [⟨"/a", "GET"⟩, ⟨"/c", "PUT"⟩, ⟨"/a", "GET"⟩] quietWorld).world).returned =
      (UpdateCasbin 7 [⟨"/a", "GET"⟩, ⟨"/c", "PUT"⟩, ⟨"/a", "GET"⟩] quietWorld).returned) ∧
    (UpdateCasbin 7 [⟨"/a", "GET"⟩, ⟨"/c", "PUT"⟩, ⟨"/a", "GET"⟩] quietWorld).world.rules.filter
        (fun r => r.Ptype = "p" ∧ r.V0 = Itoa (intOfUint 7)) =
      (dedupByPair (Itoa (intOfUint 7))
        [⟨"/a", "GET"⟩, ⟨"/c", "PUT"⟩, ⟨"/a", "GET"⟩] []).map policyRow :=
  ⟨rfl, by decide, by decide,
    (UpdateCasbin_idempotent quietWorld 7
      [⟨"/a", "GET"⟩, ⟨"/c", "PUT"⟩, ⟨"/a", "GET"⟩] rfl).1,
    ((UpdateCasbin_idempotent quietWorld 7
      [⟨"/a", "GET"⟩, ⟨"/c", "PUT"⟩, ⟨"/a", "GET"⟩] rfl).2.1 _ (by decide)).2.1 (by decide)⟩

/-- Witness of C7: moving record 1 to a free pair keeps the pairs unique. -/
theorem pair_unique_preserved_witness :
    KeysValid sampleWorld.apis ∧ PairUnique sampleWorld.apis ∧
    PairUnique (UpdateApi ⟨1, "/c", "", "", "GET"⟩ sampleWorld).world.apis ∧
    KeysValid (UpdateApi ⟨1, "/c", "", "", "GET"⟩ sampleWorld).world.apis :=
  ⟨by decide, by decide,
    (pair_unique_preserved sampleWorld (by decide) (by decide)).2.1 ⟨1, "/c", "", "", "GET"⟩⟩

/-- Witness of C8: the lookup and the deletion succeed, the cleanup fails, and
both deletions return nil. -/
theorem cascade_failures_swallowed_witness :
    failing sampleWorld.faults = none ∧ failing sampleWorld.faults.tail = none ∧
    (∃ w3, DeleteApi ⟨1, "", "", "", ""⟩ sampleWorld = .ret none w3) ∧
    (∃ w3, DeleteApisByIds [1, 2] sampleWorld = .ret none w3) :=
  ⟨rfl, rfl,
    ((cascade_failures_swallowed sampleWorld rfl rfl).1 ⟨1, "", "", "", ""⟩
      ⟨1, "/a", "", "", "GET"⟩ (by decide) (by decide) rfl).2.2 (by decide),
    ((cascade_failures_swallowed sampleWorld rfl rfl).2 [1, 2]).2 (by decide)⟩

/-- Witness of C9: the adapter cannot be built; the first call and the later
calls return nil. -/
theorem Casbin_constructed_once_witness :
    brokenWorld.once = false ∧ brokenWorld.syncedCachedEnforcer = none ∧
    (failing brokenWorld.faults ≠ none ∨ failing brokenWorld.faults.tail ≠ none) ∧
    (∃ w1, Casbin brokenWorld = .ret none w1 ∧ w1.syncedCachedEnforcer = none ∧
      w1.once = true) ∧
    CasbinCalls (2 + 1) brokenWorld = Casbin brokenWorld ::
      List.replicate 2 (.ret (Casbin brokenWorld).world.syncedCachedEnforcer
        (Casbin brokenWorld).world) :=
  ⟨rfl, rfl, Or.inl (by decide),
    (Casbin_constructed_once brokenWorld).2.2.2 rfl rfl (Or.inl (by decide)),
    (Casbin_constructed_once brokenWorld).1 2⟩

/-- Witness of C10: the rows of (/a, GET) follow the rename to (/c, POST). -/
theorem policy_rows_follow_rename_witness :
    UpdateCasbinApi "/a" "/c" "GET" "POST" quietWorld =
      .ret none (UpdateCasbinApi "/a" "/c" "GET" "POST" quietWorld).world ∧
    (UpdateCasbinApi "/a" "/c" "GET" "POST" quietWorld).world.rules =
      quietWorld.rules.map (renameRule "/a" "GET" "/c" "POST") ∧
    (UpdateCasbinApi "/a" "/c" "GET" "POST" quietWorld).world.rules.length =
      quietWorld.rules.length :=
  ⟨by decide,
    ((policy_rows_follow_rename quietWorld).1 "/a" "/c" "GET" "POST" _ (by decide)).1,
    ((policy_rows_follow_rename quietWorld).1 "/a" "/c" "GET" "POST" _ (by decide)).2.2.1⟩

end Gva
